/-
  Verification of the onenote2xml OneNote-file reader against its
  natural-language specification.

  The Lean definitions below are a shallow embedding of the Python source:

  - binary_search.py                        (Find / LowerBound / UpperBound)
  - ONE/STORE/reader.py                     (onestore_reader)
  - ONE/STORE/revision_manifest_list.py     (RevisionManifest.__init__)
  - ONE/NOTE/object_tree_builder.py         (RevisionBuilderCtx,
                                             ObjectSpaceBuilderCtx,
                                             ObjectTreeBuilder.GetVersions)
  - 1note2json.py                           (top-level exception handler)

  Machine integers do not occur (Python has arbitrary-precision ints);
  byte values are modelled as Nat, timestamps as Nat/Int as the source uses
  them, and Python dicts that are only read through key lookup are modelled
  as association lists.  Python `while` loops that do not structurally
  consume their input are modelled with an explicit fuel parameter: a
  `none` result means the loop has not terminated within `fuel` steps, so
  `∀ fuel, ... = none` proves nontermination of the source loop.
-/
import Mathlib

set_option maxRecDepth 10000

namespace OneNote

/-! ## Association-list model of Python dictionaries (lookup / `[k] = v` / `del`) -/

/-- Python `dict.get(key, None)`. -/
def alist_lookup {α β : Type} [DecidableEq α] : List (α × β) → α → Option β
  | [], _ => none
  | (k, v) :: rest, key => if k = key then some v else alist_lookup rest key

/-- Python `dict[key] = value`: replaces the value if `key` is present, else appends. -/
def alist_insert {α β : Type} [DecidableEq α] : List (α × β) → α → β → List (α × β)
  | [], key, v => [(key, v)]
  | (k, w) :: rest, key, v =>
    if k = key then (k, v) :: rest else (k, w) :: alist_insert rest key v

/-- Python `del dict[key]` (on this model a missing key is a no-op; the source
only deletes keys it has just tested for presence). -/
def alist_erase {α β : Type} [DecidableEq α] : List (α × β) → α → List (α × β)
  | [], _ => []
  | (k, w) :: rest, key =>
    if k = key then rest else (k, w) :: alist_erase rest key

/-! ## binary_search.py -/

/-- Python `array[mid]`: array access used by the binary searches.  All call
sites keep the index inside the array, so the default value is never
returned on the loops' reachable states. -/
def bs_get (a : List Int) (i : Nat) : Int := a.getD i 0

/-- The `while` loop of `Find` (binary_search.py lines 7-24), with the loop
variables `bottom`/`top` as parameters and the locals `mid = (top+bottom)//2`
and `item = array[mid]` inlined.  The source enters with `bottom = 0 ≤ top`
and every iteration keeps `bottom < top`, so the `bottom < top` guard is
equivalent to the source's `top != bottom`. -/
def find_loop (a : List Int) (target : Int) (bottom top : Nat) : Option (Int × Nat) :=
  if _h : bottom < top then
    if bs_get a ((top + bottom) / 2) = target then
      some (bs_get a ((top + bottom) / 2), (top + bottom) / 2)
    else if bs_get a ((top + bottom) / 2) > target then
      find_loop a target bottom ((top + bottom) / 2)
    else if bottom = (top + bottom) / 2 then none
    else find_loop a target ((top + bottom) / 2) top
  else none
termination_by top - bottom
decreasing_by all_goals omega

/-- binary_search.py `Find` (with the identity key, as exercised by the
repository's own `Test`): returns `(item, pos)` or `(None, None)`. -/
def Find (a : List Int) (target : Int) : Option (Int × Nat) :=
  find_loop a target 0 a.length

/-- The `while` loop of `LowerBound` (binary_search.py lines 31-55), with
`mid` and `item` inlined as in `find_loop`. -/
def lower_bound_loop (a : List Int) (target : Int) (bottom top : Nat)
    (top_item : Option Int) : Option Int × Nat :=
  if _h : bottom < top then
    if bs_get a ((top + bottom) / 2) = target then
      (some (bs_get a ((top + bottom) / 2)), (top + bottom) / 2)
    else if bs_get a ((top + bottom) / 2) > target then
      lower_bound_loop a target bottom ((top + bottom) / 2)
        (some (bs_get a ((top + bottom) / 2)))
    else if (top + bottom) / 2 ≠ bottom then
      lower_bound_loop a target ((top + bottom) / 2) top top_item
    else (top_item, top)
  else (top_item, top)
termination_by top - bottom
decreasing_by all_goals omega

/-- binary_search.py `LowerBound`: the first item `≥ target` with its
position, `(None, len(array))` when there is none. -/
def LowerBound (a : List Int) (target : Int) : Option Int × Nat :=
  lower_bound_loop a target 0 a.length none

/-- The `while` loop of `UpperBound` (binary_search.py lines 63-90).  The
source runs the indices down to `-1`, so they are `Int` here; on every
reachable state `-1 ≤ bottom < top`, hence `top + bottom + 1 ≥ 0` and
Lean's `Int` division agrees with Python's floor division. -/
def upper_bound_loop (a : List Int) (target : Int) (bottom top : Int)
    (bottom_item : Option Int) : Option Int × Int :=
  if _h : bottom < top then
    if bs_get a ((top + bottom + 1) / 2).toNat = target then
      (some (bs_get a ((top + bottom + 1) / 2).toNat), (top + bottom + 1) / 2)
    else if bs_get a ((top + bottom + 1) / 2).toNat < target then
      upper_bound_loop a target ((top + bottom + 1) / 2) top
        (some (bs_get a ((top + bottom + 1) / 2).toNat))
    else if (top + bottom + 1) / 2 ≠ top then
      upper_bound_loop a target bottom ((top + bottom + 1) / 2) bottom_item
    else (bottom_item, bottom)
  else (bottom_item, bottom)
termination_by (top - bottom).toNat
decreasing_by all_goals omega

/-- binary_search.py `UpperBound`: the last item `≤ target` with its
position, `(None, -1)` when there is none. -/
def UpperBound (a : List Int) (target : Int) : Option Int × Int :=
  upper_bound_loop a target (-1) ((a.length : Int) - 1) none

/-! ## ONE/STORE/reader.py -/

/-- ONE/exception.py `EndOfBufferException` with its message (modelled from
the spec's error taxonomy; the exception module itself only raises). -/
inductive ReaderError where
  | endOfBufferException (msg : String)
deriving DecidableEq, Repr

/-- reader.py `onestore_reader`: shared byte image, window start, cursor and
window length.  Bytes are Nat (Python ints). -/
structure onestore_reader where
  data : List Nat
  slice_offset : Nat
  offset : Nat
  length : Nat
deriving DecidableEq, Repr

/-- reader.py `onestore_reader.__init__` (lines 27-50): validates the window
against the buffer and starts the cursor at 0.  `length?` as `none` is the
omitted `length` argument. -/
def mk_reader (data : List Nat) (length? : Option Nat) (slice_offset : Nat) :
    Except ReaderError onestore_reader :=
  let data_len := data.length
  let length := match length? with
    | none => data_len - slice_offset
    | some l => l
  if slice_offset > data_len then
    .error (.endOfBufferException "Attempted slice at offset beyond buffer")
  else if length > data_len - slice_offset then
    .error (.endOfBufferException "Attempted slice with too few bytes remaining in buffer")
  else
    .ok ⟨data, slice_offset, 0, length⟩

/-- reader.py `check_read` (lines 93-98). -/
def check_read (r : onestore_reader) (length : Nat) : Except ReaderError Unit :=
  if r.offset + length > r.length then
    .error (.endOfBufferException "Attempted read with too few bytes remaining in buffer")
  else
    .ok ()

/-- reader.py `read_bytes` (lines 100-105): bounds-check, slice, advance. -/
def read_bytes (r : onestore_reader) (length : Nat) :
    Except ReaderError (List Nat × onestore_reader) :=
  match check_read r length with
  | .error e => .error e
  | .ok _ =>
    let bytes_read := (r.data.drop (r.offset + r.slice_offset)).take length
    .ok (bytes_read, ⟨r.data, r.slice_offset, r.offset + length, r.length⟩)

/-- Python `int.from_bytes(bs, byteorder='little', signed=False)`. -/
def from_bytes_le (bs : List Nat) : Nat :=
  bs.foldr (fun b acc => b + 256 * acc) 0

/-- reader.py `read_uint8` (line 115): `read_bytes(1)[0]`; on the constructor
invariant the one-byte slice is nonempty and `from_bytes_le` of it is that
byte. -/
def read_uint8 (r : onestore_reader) : Except ReaderError (Nat × onestore_reader) :=
  match read_bytes r 1 with
  | .error e => .error e
  | .ok (bs, r2) => .ok (from_bytes_le bs, r2)

/-- reader.py `read_uint16` (lines 118-119). -/
def read_uint16 (r : onestore_reader) : Except ReaderError (Nat × onestore_reader) :=
  match read_bytes r 2 with
  | .error e => .error e
  | .ok (bs, r2) => .ok (from_bytes_le bs, r2)

/-- reader.py `read_uint32` (lines 121-122). -/
def read_uint32 (r : onestore_reader) : Except ReaderError (Nat × onestore_reader) :=
  match read_bytes r 4 with
  | .error e => .error e
  | .ok (bs, r2) => .ok (from_bytes_le bs, r2)

/-- reader.py `read_uint64` (lines 124-125). -/
def read_uint64 (r : onestore_reader) : Except ReaderError (Nat × onestore_reader) :=
  match read_bytes r 8 with
  | .error e => .error e
  | .ok (bs, r2) => .ok (from_bytes_le bs, r2)

/-- reader.py `skip` (lines 127-130). -/
def skip (r : onestore_reader) (skip_bytes : Nat) : Except ReaderError onestore_reader :=
  match check_read r skip_bytes with
  | .error e => .error e
  | .ok _ => .ok ⟨r.data, r.slice_offset, r.offset + skip_bytes, r.length⟩

/-- reader.py `remaining` (lines 135-136). -/
def remaining (r : onestore_reader) : Nat := r.length - r.offset

/-! ## ONE/NOTE/object_tree_builder.py: per-object-space version lists -/

/-- The fields of `RevisionBuilderCtx` that the version-history logic reads.
Timestamps are FILETIME64 ticks; `none` is Python `None`.  `page_hash`
abstracts the `bytes` hash value (only ever compared for equality), and
`page_persistent_guid` is the string the source stores there. -/
structure RevisionBuilderCtx where
  rid : Nat
  last_modified_timestamp : Option Nat
  is_encrypted : Bool
  conflict_author : Option String
  last_modified_by : Option String
  page_persistent_guid : String
  page_hash : Nat
  os_index : Nat
deriving DecidableEq, Repr

/-- The sort key of ObjectSpaceBuilderCtx.__init__ line 297:
`ver.last_modified_timestamp if ver.last_modified_timestamp is not None else 0`.
The comparisons in `GetVersionByTimestamp` use the raw timestamp (Python
would raise TypeError on None), so theorems about them assume every
timestamp is present, where this equals the raw value. -/
def lmt (r : RevisionBuilderCtx) : Nat :=
  match r.last_modified_timestamp with
  | some t => t
  | none => 0

/-- ObjectSpaceBuilderCtx.__init__ lines 297-307: sort the candidate
revisions by timestamp (None as 0), then append every non-encrypted one to
`versions` and its timestamp to `version_timestamps`. -/
def build_versions (candidates : List RevisionBuilderCtx) :
    List RevisionBuilderCtx × List (Option Nat) :=
  let sorted_versions := candidates.mergeSort (fun a b => decide (lmt a ≤ lmt b))
  let vs := sorted_versions.filter (fun r => !r.is_encrypted)
  (vs, vs.map (fun r => r.last_modified_timestamp))

/-- The exact-match branch of `ObjectSpaceBuilderCtx.GetVersionByTimestamp`
(lines 325-331): scan forward, stop at the first timestamp above `t`. -/
def find_version_exact : List RevisionBuilderCtx → Nat → Option RevisionBuilderCtx
  | [], _ => none
  | rev :: rest, timestamp =>
    if lmt rev > timestamp then none
    else if lmt rev = timestamp then some rev
    else find_version_exact rest timestamp

/-- ObjectSpaceBuilderCtx.GetVersionByTimestamp (lines 311-332):
`upper_bound` scans the reversed list for the first timestamp `≤ t`,
`lower_bound` scans forward for the first timestamp `≥ t`, and with neither
flag the scan returns an exact match or `None`. -/
def GetVersionByTimestamp (versions : List RevisionBuilderCtx) (timestamp : Nat)
    (lower_bound upper_bound : Bool) : Option RevisionBuilderCtx :=
  if upper_bound then
    versions.reverse.find? (fun rev => decide (lmt rev ≤ timestamp))
  else if lower_bound then
    versions.find? (fun rev => decide (lmt rev ≥ timestamp))
  else
    find_version_exact versions timestamp

/-! ## ONE/NOTE/object_tree_builder.py: cross-space history (GetVersions) -/

/-- One emitted history version: the `SimpleNamespace` of
ObjectTreeBuilder.GetVersions line 524.  The page directory is only ever
replaced wholesale by the coalescing step, so it is abstracted to a Nat
token; timestamps are Int because the source subtracts them. -/
structure HistoryVersion where
  directory : Nat
  CreatedTimeStamp : Int
  LastModifiedTimeStamp : Int
  Author : Option String
deriving DecidableEq, Repr

/-- ObjectTreeBuilder.__init__ lines 377-379: the `--combine-revisions`
minutes value converted to 100 ns FILETIME units. -/
def combine_span_filetime (minutes : Int) : Int :=
  minutes * 60 * 1000 * 10000

/-- The version-emission step of GetVersions (lines 518-533) for one
timestamp that survived the fingerprint check.  The source's running `rev`
is the last entry of `self.versions` (every created namespace is appended
immediately and updated in place afterwards), so in-place update becomes
replacement of the last list entry. -/
def emit_version (versions : List HistoryVersion) (span : Int) (tree : Nat)
    (version_timestamp : Int) (author : Option String) : List HistoryVersion :=
  match versions.getLast? with
  | none => versions ++ [⟨tree, version_timestamp, version_timestamp, author⟩]
  | some rev =>
    if (version_timestamp ≠ rev.LastModifiedTimeStamp ∧
          version_timestamp - rev.CreatedTimeStamp ≥ span) ∨
        (rev.Author ≠ none ∧ author ≠ none ∧ rev.Author ≠ author) then
      versions ++ [⟨tree, version_timestamp, version_timestamp, author⟩]
    else
      versions.dropLast ++ [⟨tree, rev.CreatedTimeStamp, version_timestamp, rev.Author⟩]

/-! ## ONE/NOTE/object_tree_builder.py: per-timestamp page tree with conflict buckets -/

/-- The `version_tree` dict of GetVersions, keyed by page GUID strings. -/
abbrev VersionTree := List (String × RevisionBuilderCtx)

/-- GetVersions line 476/483: `"%s-%d" % (guid, i)`. -/
def ext_guid (guid : String) (i : Nat) : String :=
  guid ++ "-" ++ Nat.repr i

/-- The extension-bucket insertion loop of GetVersions lines 482-487:
probe `guid-1` … `guid-99` and place `rev` in the first free one; if all
are occupied the revision is dropped. -/
def conflict_bucket_loop (tree : VersionTree) (guid : String)
    (rev : RevisionBuilderCtx) (i : Nat) : VersionTree :=
  if _h : i < 100 then
    if alist_lookup tree (ext_guid guid i) = none then
      alist_insert tree (ext_guid guid i) rev
    else
      conflict_bucket_loop tree guid rev (i + 1)
  else tree
termination_by 100 - i
decreasing_by all_goals omega

/-- The extension-bucket deletion loop of GetVersions lines 475-480:
delete `guid-1`, `guid-2`, … until the first index that is absent (or
after `guid-99`). -/
def delete_ext_buckets (tree : VersionTree) (guid : String) (i : Nat) : VersionTree :=
  if _h : i < 100 then
    if alist_lookup tree (ext_guid guid i) = none then tree
    else delete_ext_buckets (alist_erase tree (ext_guid guid i)) guid (i + 1)
  else tree
termination_by 100 - i
decreasing_by all_goals omega

/-- The per-revision grouping step of GetVersions lines 466-489: first
occurrence of a GUID claims the slot; a strictly later revision supersedes
it and drops its extension buckets; an equal-or-earlier revision with a
different hash goes to the first free extension bucket. -/
def add_revision_to_tree (tree : VersionTree) (rev : RevisionBuilderCtx) : VersionTree :=
  let guid := rev.page_persistent_guid
  match alist_lookup tree guid with
  | none => alist_insert tree guid rev
  | some prev_revision_ctx =>
    if lmt prev_revision_ctx < lmt rev then
      delete_ext_buckets (alist_insert tree guid rev) guid 1
    else if rev.page_hash ≠ prev_revision_ctx.page_hash then
      conflict_bucket_loop tree guid rev 1
    else tree

/-- Specification-side helper: the first free extension index among
`guid-1` … `guid-99`, if any. -/
def first_free_bucket (tree : VersionTree) (guid : String) : Option Nat :=
  (List.range' 1 99).find? (fun i => (alist_lookup tree (ext_guid guid i)).isNone)

/-- Specification-side helper: the first absent extension index among
`guid-1` … `guid-99`, or 100 when all are present. -/
def first_missing_bucket (tree : VersionTree) (guid : String) : Nat :=
  match (List.range' 1 99).find? (fun i => (alist_lookup tree (ext_guid guid i)).isNone) with
  | some k => k
  | none => 100

/-- Specification-side helper: the first absent extension index among
`guid-i` … `guid-99`, or 100 when all are present. -/
def first_missing_from (tree : VersionTree) (guid : String) (i : Nat) : Nat :=
  match (List.range' i (100 - i)).find?
      (fun j => (alist_lookup tree (ext_guid guid j)).isNone) with
  | some k => k
  | none => 100

/-- Specification-side helper: erase extension buckets `guid-i` for
`i ∈ [lo, hi)`. -/
def erase_ext_range (tree : VersionTree) (guid : String) (lo hi : Nat) : VersionTree :=
  if _h : lo < hi then
    erase_ext_range (alist_erase tree (ext_guid guid lo)) guid (lo + 1) hi
  else tree
termination_by hi - lo
decreasing_by all_goals omega

/-! ## ONE/STORE/revision_manifest_list.py: RevisionManifest decode -/

/-- base_types ExGUID: a (GUID, n) pair; the GUID is abstracted to Nat
(only equality is used here). -/
structure ExGUID where
  guid : Nat
  n : Nat
deriving DecidableEq, Repr

/-- base_types NULL_ExGUID: zero GUID with n = 0. -/
def NULL_ExGUID : ExGUID := ⟨0, 0⟩

/-- The file-node records that can occur in a section revision-manifest
stream between the manifest-start and manifest-end markers, with the
payload fields the decode loop reads.  CompactIDs/ExGUIDs carried by root
references are abstracted to Nat. -/
inductive FileNode where
  | objectGroupListRef (objectGroupId : Nat)
  | objectInfoDepOverrides
  | rootObjectRef2 (rootRole : Nat) (coidRoot : Nat)
  | rootObjectRef3 (rootRole : Nat) (oidRoot : Nat)
  | globalIdTableStart
  | globalIdTableEntry (index : Nat) (guid : Nat)
  | globalIdTableEnd
  | dataSignatureGroupDef (sig : Nat)
  | objectDeclRefCount
  | objectRevisionRefCount
  | encryptionKeyV2
  | revisionManifestEnd
deriving DecidableEq, Repr

/-- The exceptions the revision-manifest decode can raise:
RevisionMismatchException, UnexpectedFileNodeException, a failed `assert`
(AssertionError), a failed table lookup, and StopIteration from `next()`
on an exhausted node stream. -/
inductive DecodeError where
  | revisionMismatch (msg : String)
  | unexpectedFileNode (msg : String)
  | assertionFailed (msg : String)
  | lookupError (msg : String)
  | stopIteration
deriving DecidableEq, Repr

/-- The decoded revision manifest (revision_manifest_list.py lines 128-137).
`object_groups` maps ObjectGroupID to the decoded group, abstracted here to
its id (ObjectGroup itself lives outside src); `root_objects` maps root
role to root-object id; `global_id_table` is the entry list or None. -/
structure RevisionManifest where
  rid : ExGUID
  ridDependent : ExGUID
  odcsDefault : Nat
  dep_revision : Option ExGUID
  object_groups : List (Nat × Nat)
  root_objects : List (Nat × Nat)
  global_id_table : Option (List (Nat × Nat))
  DataSignatureGroup : Option Nat
deriving DecidableEq, Repr

/-- RevisionManifest.__init__ lines 138-152: resolve the dependent
revision.  A missing dependent raises RevisionMismatchException; a
mismatched `odcsDefault` fails the `assert` on line 146; on success the
dependent's global-id table is remembered and its `root_objects` map is
copied.  Returns (dep rid, prev_global_id_table, initial root_objects). -/
def revision_manifest_prologue (revisions : List (ExGUID × RevisionManifest))
    (ridDependent : ExGUID) (odcsDefault : Nat) :
    Except DecodeError (Option ExGUID × Option (List (Nat × Nat)) × List (Nat × Nat)) :=
  if ridDependent ≠ NULL_ExGUID then
    match alist_lookup revisions ridDependent with
    | none => .error (.revisionMismatch "Dependent revision not present")
    | some dep_revision =>
      if odcsDefault = dep_revision.odcsDefault then
        .ok (some dep_revision.rid, dep_revision.global_id_table, dep_revision.root_objects)
      else
        .error (.assertionFailed "self.odcsDefault == dep_revision.odcsDefault")
  else
    .ok (none, none, [])

/-- The first decode loop of RevisionManifest.__init__ (lines 158-178),
with an explicit fuel: the branch for an ObjectGroupListReferenceFND node
under `odcsDefault != 0` executes `continue` WITHOUT the trailing
`node = next(node_iter)`, so it re-enters the loop with the same node
(and the fuel is the only thing that decreases).  `none` means the loop
has not terminated within `fuel` iterations.  Building an ObjectGroup and
resolving a CompactID through it happen outside src; the group is
modelled by its id and the resolution as the identity (modelled from the
spec, which only needs the map to be recorded). -/
def revision_manifest_loop1 (odcsDefault : Nat) :
    Nat → FileNode → List FileNode → List (Nat × Nat) → List (Nat × Nat) →
    Option (Except DecodeError (FileNode × List FileNode × List (Nat × Nat) × List (Nat × Nat)))
  | 0, _, _, _, _ => none
  | fuel + 1, node, rest, object_groups, root_objects =>
    if node = .revisionManifestEnd then
      some (.ok (node, rest, object_groups, root_objects))
    else
      match node with
      | .objectGroupListRef gid =>
        if odcsDefault ≠ 0 then
          revision_manifest_loop1 odcsDefault fuel node rest object_groups root_objects
        else
          match rest with
          | [] => some (.error .stopIteration)
          | node2 :: rest2 =>
            revision_manifest_loop1 odcsDefault fuel node2 rest2
              (alist_insert object_groups gid gid) root_objects
      | .objectInfoDepOverrides =>
        match rest with
        | [] => some (.error .stopIteration)
        | node2 :: rest2 =>
          revision_manifest_loop1 odcsDefault fuel node2 rest2 object_groups root_objects
      | .rootObjectRef2 role coid =>
        match rest with
        | [] => some (.error .stopIteration)
        | node2 :: rest2 =>
          revision_manifest_loop1 odcsDefault fuel node2 rest2 object_groups
            (alist_insert root_objects role coid)
      | _ => some (.ok (node, rest, object_groups, root_objects))

/-- GlobalIdTable consumption (revision_manifest_list.py line 182; the
GlobalIdTable class lives outside src).  Modelled from the spec: consume a
contiguous run of entry nodes ending with GlobalIdTableEnd, seeding the
new table with the previous (dependent) table's entries. -/
def consume_global_id_table :
    List FileNode → List (Nat × Nat) →
    Except DecodeError (List (Nat × Nat) × List FileNode)
  | [], _ => .error .stopIteration
  | node :: rest, acc =>
    match node with
    | .globalIdTableEnd => .ok (acc, rest)
    | .globalIdTableEntry index guid => consume_global_id_table rest (alist_insert acc index guid)
    | _ => .error (.unexpectedFileNode "Unexpected file node in Global ID Table")

/-- The second decode loop of RevisionManifest.__init__ (lines 186-210):
every iteration advances the stream, an unrecognized node id raises
UnexpectedFileNodeException.  `global_id_table` is `self.global_id_table`
(set only if a table start node was seen); a RootObjectReference2FNDX here
resolves its CompactID through it. -/
def revision_manifest_loop2 :
    FileNode → List FileNode → List (Nat × Nat) → Option (List (Nat × Nat)) → Option Nat →
    Except DecodeError (List (Nat × Nat) × Option Nat)
  | node, rest, root_objects, global_id_table, dsg =>
    if node = .revisionManifestEnd then
      .ok (root_objects, dsg)
    else
      match node with
      | .objectInfoDepOverrides =>
        match rest with
        | [] => .error .stopIteration
        | node2 :: rest2 => revision_manifest_loop2 node2 rest2 root_objects global_id_table dsg
      | .rootObjectRef3 role oidRoot =>
        match rest with
        | [] => .error .stopIteration
        | node2 :: rest2 =>
          revision_manifest_loop2 node2 rest2 (alist_insert root_objects role oidRoot)
            global_id_table dsg
      | .dataSignatureGroupDef sig =>
        match rest with
        | [] => .error .stopIteration
        | node2 :: rest2 => revision_manifest_loop2 node2 rest2 root_objects global_id_table (some sig)
      | .objectDeclRefCount =>
        match rest with
        | [] => .error .stopIteration
        | node2 :: rest2 => revision_manifest_loop2 node2 rest2 root_objects global_id_table dsg
      | .objectRevisionRefCount =>
        match rest with
        | [] => .error .stopIteration
        | node2 :: rest2 => revision_manifest_loop2 node2 rest2 root_objects global_id_table dsg
      | .rootObjectRef2 role coid =>
        match global_id_table with
        | none => .error (.lookupError "global id table is None")
        | some table =>
          match alist_lookup table coid with
          | none => .error (.lookupError "CompactID not present in global id table")
          | some oid =>
            match rest with
            | [] => .error .stopIteration
            | node2 :: rest2 =>
              revision_manifest_loop2 node2 rest2 (alist_insert root_objects role oid)
                global_id_table dsg
      | _ =>
        .error (.unexpectedFileNode "Unexpected file node in Revision Manifest NodeList Global Table")

/-- The tail of RevisionManifest.__init__ after the prologue and the
optional leading encryption-key node (lines 158-212): first loop, optional
global-id table, second loop, assembled manifest. -/
def RevisionManifest_decode_body (fuel : Nat) (rid ridDependent : ExGUID)
    (odcsDefault : Nat) (dep : Option ExGUID)
    (prev_global_id_table : Option (List (Nat × Nat))) (root0 : List (Nat × Nat))
    (node1 : FileNode) (rest1 : List FileNode) :
    Option (Except DecodeError RevisionManifest) :=
  match revision_manifest_loop1 odcsDefault fuel node1 rest1 [] root0 with
  | none => none
  | some (.error e) => some (.error e)
  | some (.ok (node2, rest2, object_groups, roots1)) =>
    if node2 = .globalIdTableStart then
      match consume_global_id_table rest2 (prev_global_id_table.getD []) with
      | .error e => some (.error e)
      | .ok (table, rest3) =>
        match rest3 with
        | [] => some (.error .stopIteration)
        | node3 :: rest4 =>
          match revision_manifest_loop2 node3 rest4 roots1 (some table) none with
          | .error e => some (.error e)
          | .ok (roots2, dsg) =>
            some (.ok ⟨rid, ridDependent, odcsDefault, dep, object_groups, roots2,
              some table, dsg⟩)
    else
      match revision_manifest_loop2 node2 rest2 roots1 none none with
      | .error e => some (.error e)
      | .ok (roots2, dsg) =>
        some (.ok ⟨rid, ridDependent, odcsDefault, dep, object_groups, roots2,
          none, dsg⟩)

/-- RevisionManifest.__init__ (lines 128-212) over an explicit node stream:
prologue, optional leading encryption-key node, first loop, optional
global-id table, second loop.  `none` means the decode does not terminate
within `fuel` iterations of the first loop. -/
def RevisionManifest_decode (fuel : Nat) (revisions : List (ExGUID × RevisionManifest))
    (rid ridDependent : ExGUID) (odcsDefault : Nat) (nodes : List FileNode) :
    Option (Except DecodeError RevisionManifest) :=
  match revision_manifest_prologue revisions ridDependent odcsDefault with
  | .error e => some (.error e)
  | .ok (dep, prev_global_id_table, root0) =>
    match nodes with
    | [] => some (.error .stopIteration)
    | node :: rest =>
      if node = .encryptionKeyV2 then
        match rest with
        | [] => some (.error .stopIteration)
        | node2 :: rest2 =>
          RevisionManifest_decode_body fuel rid ridDependent odcsDefault dep
            prev_global_id_table root0 node2 rest2
      else
        RevisionManifest_decode_body fuel rid ridDependent odcsDefault dep
          prev_global_id_table root0 node rest

/-! ## ONE/NOTE/object_tree_builder.py: per-revision object graph -/

/-- A property set as the object builder sees it: its JCID and the object
references its properties carry (`none` is a null reference).  The walk of
non-reference properties does not touch the object dictionary and is
omitted. -/
structure PropertySet where
  jcid : Nat
  children : List (Option Nat)
deriving DecidableEq, Repr

/-- A constructed typed object: its oid, JCID and recursively constructed
referenced objects. -/
inductive BuiltObject where
  | node (oid : Nat) (jcid : Nat) (children : List (Option BuiltObject))

/-- An `obj_dict` slot: `NotImplemented` (the in-progress sentinel) or the
built object. -/
inductive Slot where
  | sentinel
  | built (obj : BuiltObject)

/-- ONE/exception.py errors reachable from the object builder, with their
messages.  Both are subclasses of OneException (modelled from the spec's
error taxonomy: decode errors are fatal and reach the top-level handler). -/
inductive BuildError where
  | circularObjectReference (msg : String)
  | objectNotFound (msg : String)

mutual

/-- RevisionBuilderCtx.GetObjectReference (object_tree_builder.py lines
148-169): None maps to None; a sentinel hit raises
CircularObjectReferenceException; a missing property set raises
ObjectNotFoundException; otherwise insert the sentinel, build the object
(recursing into its references) and replace the sentinel with it.  `fuel`
bounds the recursion depth (`none` = not finished within `fuel`); the
sentinel logic itself never consumes fuel. -/
def GetObjectReference (rev : List (Nat × PropertySet)) (fuel : Nat)
    (obj_dict : List (Nat × Slot)) (oid? : Option Nat) :
    Option (Except BuildError (Option BuiltObject × List (Nat × Slot))) :=
  match oid? with
  | none => some (.ok (none, obj_dict))
  | some oid =>
    match alist_lookup obj_dict oid with
    | some .sentinel =>
      some (.error (.circularObjectReference ("Circular reference to object " ++ Nat.repr oid)))
    | some (.built obj) => some (.ok (some obj, obj_dict))
    | none =>
      let dict1 := alist_insert obj_dict oid .sentinel
      match alist_lookup rev oid with
      | none =>
        some (.error (.objectNotFound ("Object " ++ Nat.repr oid ++ " not found in revision")))
      | some prop_set =>
        match fuel with
        | 0 => none
        | fuel2 + 1 =>
          match make_object_children rev fuel2 dict1 prop_set.children with
          | none => none
          | some (.error e) => some (.error e)
          | some (.ok (children, dict2)) =>
            let obj := BuiltObject.node oid prop_set.jcid children
            some (.ok (some obj, alist_insert dict2 oid (.built obj)))
termination_by (fuel, 0, 0)

/-- The property walk of `make_object` (outside src; modelled from the
spec: object-reference properties recurse through `get_object`, i.e.
GetObjectReference, threading the object dictionary). -/
def make_object_children (rev : List (Nat × PropertySet)) (fuel : Nat)
    (obj_dict : List (Nat × Slot)) (children : List (Option Nat)) :
    Option (Except BuildError (List (Option BuiltObject) × List (Nat × Slot))) :=
  match children with
  | [] => some (.ok ([], obj_dict))
  | child :: restChildren =>
    match GetObjectReference rev fuel obj_dict child with
    | none => none
    | some (.error e) => some (.error e)
    | some (.ok (obj?, dict2)) =>
      match make_object_children rev fuel dict2 restChildren with
      | none => none
      | some (.error e) => some (.error e)
      | some (.ok (objs, dict3)) => some (.ok (obj? :: objs, dict3))
termination_by (fuel, 1, children.length)

end

/-- RevisionManifest.GetRootObjectId (revision_manifest_list.py lines
214-215): `self.root_objects.get(role, None)`. -/
def GetRootObjectId (root_objects : List (Nat × Nat)) (role : Nat) : Option Nat :=
  alist_lookup root_objects role

/-- The top-level handler of 1note2json.py lines 92-104, modelled from the
spec's error policy: any OneException (which CircularObjectReferenceException
and ObjectNotFoundException are) is caught and the process exits with
code 1; a normal run returns main()'s 0. -/
def main_exit_code (result : Except BuildError Nat) : Nat :=
  match result with
  | .ok code => code
  | .error _ => 1

/-! ## Specification predicates for the claims -/

/-- Specification of `Find` on an ascending array: `(None, None)` implies
the target is absent, and a hit returns the target at a position that
holds it. -/
def FindSpec (a : List Int) (target : Int) : Prop :=
  (Find a target = none → target ∉ a) ∧
  (target ∉ a → Find a target = none) ∧
  (∀ item pos, Find a target = some (item, pos) →
    item = target ∧ ∃ h : pos < a.length, a.get ⟨pos, h⟩ = target)

/-- Specification of `LowerBound`: the returned pair is the first item
`≥ target` at its position, or `(None, len(array))` when every item is
below the target. -/
def LowerBoundSpec (a : List Int) (target : Int) : Prop :=
  (∀ item pos, LowerBound a target = (some item, pos) →
    ∃ h : pos < a.length, a.get ⟨pos, h⟩ = item ∧ target ≤ item ∧
      ∀ i, ∀ hi : i < a.length, i < pos → a.get ⟨i, hi⟩ < target) ∧
  (∀ pos, LowerBound a target = (none, pos) →
    pos = a.length ∧ ∀ i, ∀ hi : i < a.length, a.get ⟨i, hi⟩ < target)

/-- Specification of `UpperBound`: the returned pair is the last item
`≤ target` at its position, or `(None, -1)` when every item is above the
target. -/
def UpperBoundSpec (a : List Int) (target : Int) : Prop :=
  (∀ item pos, UpperBound a target = (some item, pos) →
    0 ≤ pos ∧ ∃ h : pos.toNat < a.length, a.get ⟨pos.toNat, h⟩ = item ∧ item ≤ target ∧
      ∀ i, ∀ hi : i < a.length, pos < (i : Int) → target < a.get ⟨i, hi⟩) ∧
  (∀ pos, UpperBound a target = (none, pos) →
    pos = -1 ∧ ∀ i, ∀ hi : i < a.length, target < a.get ⟨i, hi⟩)

/-- Specification of the reader operations on a well-formed reader
(`offset ≤ length`, which the constructor establishes and every successful
operation preserves): each operation fails with EndOfBufferException
exactly when the requested length exceeds `length - offset` = `remaining`,
and otherwise succeeds advancing the cursor by the length read; a
zero-length window has `remaining = 0` and fails every typed read. -/
def ReaderOpsSpec (r : onestore_reader) (n : Nat) : Prop :=
  ((∃ m, read_bytes r n = .error (.endOfBufferException m)) ↔ r.length - r.offset < n) ∧
  (∀ bs r2, read_bytes r n = .ok (bs, r2) →
    r2.offset = r.offset + n ∧ r2.length = r.length ∧ r2.data = r.data ∧
      r2.slice_offset = r.slice_offset) ∧
  (n ≤ r.length - r.offset → ∃ bs r2, read_bytes r n = .ok (bs, r2)) ∧
  ((∃ m, skip r n = .error (.endOfBufferException m)) ↔ r.length - r.offset < n) ∧
  (∀ r2, skip r n = .ok r2 → r2.offset = r.offset + n ∧ r2.length = r.length) ∧
  (n ≤ r.length - r.offset → ∃ r2, skip r n = .ok r2) ∧
  ((∃ m, read_uint8 r = .error (.endOfBufferException m)) ↔ r.length - r.offset < 1) ∧
  (∀ v r2, read_uint8 r = .ok (v, r2) → r2.offset = r.offset + 1) ∧
  ((∃ m, read_uint16 r = .error (.endOfBufferException m)) ↔ r.length - r.offset < 2) ∧
  (∀ v r2, read_uint16 r = .ok (v, r2) → r2.offset = r.offset + 2) ∧
  ((∃ m, read_uint32 r = .error (.endOfBufferException m)) ↔ r.length - r.offset < 4) ∧
  (∀ v r2, read_uint32 r = .ok (v, r2) → r2.offset = r.offset + 4) ∧
  ((∃ m, read_uint64 r = .error (.endOfBufferException m)) ↔ r.length - r.offset < 8) ∧
  (∀ v r2, read_uint64 r = .ok (v, r2) → r2.offset = r.offset + 8) ∧
  (r.length = 0 → remaining r = 0 ∧
    (∃ m, read_uint8 r = .error (.endOfBufferException m)) ∧
    (∃ m, read_uint16 r = .error (.endOfBufferException m)) ∧
    (∃ m, read_uint32 r = .error (.endOfBufferException m)) ∧
    (∃ m, read_uint64 r = .error (.endOfBufferException m)))

/-- Specification of the per-object-space version list construction: sorted
ascending by timestamp (None as 0), `version_timestamps` is the pointwise
timestamp list of `versions`, and no encrypted revision appears. -/
def BuildVersionsSpec (candidates : List RevisionBuilderCtx) : Prop :=
  List.Pairwise (fun a b => lmt a ≤ lmt b) (build_versions candidates).1 ∧
  (build_versions candidates).2 =
    (build_versions candidates).1.map (fun r => r.last_modified_timestamp) ∧
  (build_versions candidates).2.length = (build_versions candidates).1.length ∧
  (∀ i, ∀ h1 : i < (build_versions candidates).2.length,
    ∀ h2 : i < (build_versions candidates).1.length,
    (build_versions candidates).2.get ⟨i, h1⟩ =
      ((build_versions candidates).1.get ⟨i, h2⟩).last_modified_timestamp) ∧
  (∀ v ∈ (build_versions candidates).1, v.is_encrypted = false)

/-- Specification of `GetVersionByTimestamp` on a sorted version list whose
timestamps are all present: `upper_bound` yields the most recent version
with timestamp `≤ t` (no other version's timestamp lies in `(v.ts, t]`),
`lower_bound` the least recent with timestamp `≥ t`, no flag an exact
match. -/
def VersionLookupSpec (versions : List RevisionBuilderCtx) (t : Nat) : Prop :=
  (match GetVersionByTimestamp versions t false true with
   | some v => v ∈ versions ∧ ∃ tv, v.last_modified_timestamp = some tv ∧ tv ≤ t ∧
       ∀ v2 ∈ versions, ∀ tv2, v2.last_modified_timestamp = some tv2 → ¬(tv < tv2 ∧ tv2 ≤ t)
   | none => ∀ v ∈ versions, ∀ tv, v.last_modified_timestamp = some tv → t < tv) ∧
  (match GetVersionByTimestamp versions t true false with
   | some v => v ∈ versions ∧ ∃ tv, v.last_modified_timestamp = some tv ∧ t ≤ tv ∧
       ∀ v2 ∈ versions, ∀ tv2, v2.last_modified_timestamp = some tv2 → t ≤ tv2 → tv ≤ tv2
   | none => ∀ v ∈ versions, ∀ tv, v.last_modified_timestamp = some tv → tv < t) ∧
  (match GetVersionByTimestamp versions t false false with
   | some v => v ∈ versions ∧ v.last_modified_timestamp = some t
   | none => ∀ v ∈ versions, v.last_modified_timestamp ≠ some t)

/-- Specification of the coalescing step: with no previous version a new
entry is appended; with a previous version, the update happens in place
(directory replaced, LastModifiedTimeStamp set, CreatedTimeStamp and
Author kept) exactly when the authors are compatible and the timestamp is
within the window, and an author change always appends. -/
def EmitVersionSpec (versions : List HistoryVersion) (span : Int) (tree : Nat)
    (t : Int) (author : Option String) : Prop :=
  (versions.getLast? = none →
    emit_version versions span tree t author = versions ++ [⟨tree, t, t, author⟩]) ∧
  (∀ rev, versions.getLast? = some rev →
    (((rev.Author = none ∨ author = none ∨ rev.Author = author) ∧
        (t = rev.LastModifiedTimeStamp ∨ t - rev.CreatedTimeStamp < span)) →
      emit_version versions span tree t author =
        versions.dropLast ++ [⟨tree, rev.CreatedTimeStamp, t, rev.Author⟩]) ∧
    (¬((rev.Author = none ∨ author = none ∨ rev.Author = author) ∧
        (t = rev.LastModifiedTimeStamp ∨ t - rev.CreatedTimeStamp < span)) →
      emit_version versions span tree t author = versions ++ [⟨tree, t, t, author⟩]) ∧
    (rev.Author ≠ none → author ≠ none → rev.Author ≠ author →
      emit_version versions span tree t author = versions ++ [⟨tree, t, t, author⟩]))

/-- Specification of the conflict-bucket handling: an equal-timestamp,
different-hash revision goes into the first free bucket among
`guid-1` … `guid-99` (silently dropped when all are occupied, and no
bucket beyond 99 is probed), and a strictly later revision takes the slot
and drops the consecutive extension buckets up to the first missing
index. -/
def ConflictBucketSpec (tree : VersionTree) (rev : RevisionBuilderCtx) : Prop :=
  (∀ prev, alist_lookup tree rev.page_persistent_guid = some prev →
    lmt prev = lmt rev → rev.page_hash ≠ prev.page_hash →
    (match first_free_bucket tree rev.page_persistent_guid with
     | some k => add_revision_to_tree tree rev =
         alist_insert tree (ext_guid rev.page_persistent_guid k) rev
     | none => add_revision_to_tree tree rev = tree)) ∧
  (∀ k, first_free_bucket tree rev.page_persistent_guid = some k →
    1 ≤ k ∧ k ≤ 99 ∧
    alist_lookup tree (ext_guid rev.page_persistent_guid k) = none ∧
    ∀ j, 1 ≤ j → j < k → alist_lookup tree (ext_guid rev.page_persistent_guid j) ≠ none) ∧
  (first_free_bucket tree rev.page_persistent_guid = none →
    ∀ j, 1 ≤ j → j ≤ 99 →
      alist_lookup tree (ext_guid rev.page_persistent_guid j) ≠ none) ∧
  (∀ prev, alist_lookup tree rev.page_persistent_guid = some prev →
    lmt prev < lmt rev →
    add_revision_to_tree tree rev =
      erase_ext_range (alist_insert tree rev.page_persistent_guid rev)
        rev.page_persistent_guid 1
        (first_missing_bucket (alist_insert tree rev.page_persistent_guid rev)
          rev.page_persistent_guid))

/-- Specification of dependent-revision handling in the manifest decode:
RevisionMismatch exactly when the dependent is absent, a failed assert on
an odcsDefault mismatch, and root objects seeded from the dependent on
success. -/
def DependentRevisionSpec (fuel : Nat) (revisions : List (ExGUID × RevisionManifest))
    (rid ridDependent : ExGUID) (odcsDefault : Nat) (nodes : List FileNode) : Prop :=
  (ridDependent ≠ NULL_ExGUID → alist_lookup revisions ridDependent = none →
    RevisionManifest_decode fuel revisions rid ridDependent odcsDefault nodes =
      some (.error (.revisionMismatch "Dependent revision not present"))) ∧
  (∀ m, RevisionManifest_decode fuel revisions rid ridDependent odcsDefault nodes =
      some (.error (.revisionMismatch m)) →
    ridDependent ≠ NULL_ExGUID ∧ alist_lookup revisions ridDependent = none) ∧
  (∀ dep, ridDependent ≠ NULL_ExGUID → alist_lookup revisions ridDependent = some dep →
    odcsDefault ≠ dep.odcsDefault →
    ∃ m, RevisionManifest_decode fuel revisions rid ridDependent odcsDefault nodes =
      some (.error (.assertionFailed m))) ∧
  (∀ dep, ridDependent ≠ NULL_ExGUID → alist_lookup revisions ridDependent = some dep →
    odcsDefault = dep.odcsDefault →
    revision_manifest_prologue revisions ridDependent odcsDefault =
      .ok (some dep.rid, dep.global_id_table, dep.root_objects))

/-- Specification for the null-reference path of the object builder:
`GetObjectReference(None)` is `None` without error, an absent root role
resolves to `None`, and an ObjectNotFound error is raised only for a
non-null oid: the oid the exception message names has no property set in
the revision, and conversely a requested oid that is neither under
construction nor resolvable raises exactly that error. -/
def ObjectRefSpec (rev : List (Nat × PropertySet)) (fuel : Nat)
    (obj_dict : List (Nat × Slot)) (root_objects : List (Nat × Nat)) (role : Nat) : Prop :=
  (GetObjectReference rev fuel obj_dict none = some (.ok (none, obj_dict))) ∧
  (GetRootObjectId root_objects role = none →
    GetObjectReference rev fuel obj_dict (GetRootObjectId root_objects role) =
      some (.ok (none, obj_dict))) ∧
  (∀ oid? m, GetObjectReference rev fuel obj_dict oid? =
      some (.error (.objectNotFound m)) →
    oid? ≠ none ∧ ∃ oid, alist_lookup rev oid = none ∧
      m = "Object " ++ Nat.repr oid ++ " not found in revision") ∧
  (∀ oid, alist_lookup obj_dict oid = none → alist_lookup rev oid = none →
    GetObjectReference rev fuel obj_dict (some oid) =
      some (.error (.objectNotFound
        ("Object " ++ Nat.repr oid ++ " not found in revision"))))

/-- Specification of cycle detection: a sentinel hit raises
CircularObjectReference with the literal message, a completed construction
leaves the built object (not the sentinel) in the dictionary, a
self-referencing object errors for every fuel, and the error maps to exit
code 1 at the top level. -/
def CycleDetectSpec (rev : List (Nat × PropertySet)) (fuel : Nat)
    (obj_dict : List (Nat × Slot)) (oid : Nat) (jcid : Nat) : Prop :=
  (alist_lookup obj_dict oid = some .sentinel →
    GetObjectReference rev fuel obj_dict (some oid) =
      some (.error (.circularObjectReference
        ("Circular reference to object " ++ Nat.repr oid)))) ∧
  (∀ obj dict2, GetObjectReference rev fuel obj_dict (some oid) =
      some (.ok (some obj, dict2)) →
    alist_lookup dict2 oid = some (.built obj)) ∧
  (GetObjectReference [(oid, ⟨jcid, [some oid]⟩)] (fuel + 1) [] (some oid) =
    some (.error (.circularObjectReference
      ("Circular reference to object " ++ Nat.repr oid)))) ∧
  (main_exit_code (.error (.circularObjectReference
    ("Circular reference to object " ++ Nat.repr oid))) = 1)

/-! ## Helper lemmas -/

theorem alist_lookup_insert_self {α β : Type} [DecidableEq α]
    (l : List (α × β)) (key : α) (v : β) :
    alist_lookup (alist_insert l key v) key = some v := by
  induction l with
  | nil => simp [alist_insert, alist_lookup]
  | cons hd tl ih =>
    obtain ⟨k, w⟩ := hd
    by_cases hk : k = key
    · simp [alist_insert, alist_lookup, hk]
    · simp [alist_insert, alist_lookup, hk, ih]

theorem alist_lookup_insert_ne {α β : Type} [DecidableEq α]
    (l : List (α × β)) (key key2 : α) (v : β) (hne : key ≠ key2) :
    alist_lookup (alist_insert l key v) key2 = alist_lookup l key2 := by
  induction l with
  | nil => simp [alist_insert, alist_lookup, hne]
  | cons hd tl ih =>
    obtain ⟨k, w⟩ := hd
    by_cases hk : k = key
    · subst hk
      simp [alist_insert, alist_lookup, hne]
    · simp only [alist_insert, if_neg hk]
      by_cases hk2 : k = key2
      · simp [alist_lookup, hk2]
      · simp [alist_lookup, hk2, ih]

theorem alist_lookup_erase_ne {α β : Type} [DecidableEq α]
    (l : List (α × β)) (key key2 : α) (hne : key ≠ key2) :
    alist_lookup (alist_erase l key) key2 = alist_lookup l key2 := by
  induction l with
  | nil => simp [alist_erase]
  | cons hd tl ih =>
    obtain ⟨k, w⟩ := hd
    by_cases hk : k = key
    · subst hk
      simp [alist_erase, alist_lookup, hne]
    · simp only [alist_erase, if_neg hk]
      by_cases hk2 : k = key2
      · simp [alist_lookup, hk2]
      · simp [alist_lookup, hk2, ih]

/-! ## C7: reader bounds checks -/

theorem read_bytes_spec (r : onestore_reader) (k : Nat) (hr : r.offset ≤ r.length) :
    ((∃ m, read_bytes r k = .error (.endOfBufferException m)) ↔ r.length - r.offset < k) ∧
    (∀ bs r2, read_bytes r k = .ok (bs, r2) →
      r2.offset = r.offset + k ∧ r2.length = r.length ∧ r2.data = r.data ∧
        r2.slice_offset = r.slice_offset) ∧
    (k ≤ r.length - r.offset → ∃ bs r2, read_bytes r k = .ok (bs, r2)) := by
  by_cases h : r.offset + k > r.length
  · refine ⟨⟨fun _ => by omega, fun _ => ?_⟩, fun bs r2 hok => ?_, fun hk => ?_⟩
    · exact ⟨"Attempted read with too few bytes remaining in buffer",
        by simp [read_bytes, check_read, if_pos h]⟩
    · simp [read_bytes, check_read, if_pos h] at hok
    · omega
  · refine ⟨⟨fun ⟨m, hm⟩ => ?_, fun hlt => by omega⟩, fun bs r2 hok => ?_, fun _ => ?_⟩
    · simp [read_bytes, check_read, if_neg h] at hm
    · simp only [read_bytes, check_read, if_neg h] at hok
      obtain ⟨-, h2⟩ := Prod.mk.injEq .. ▸ (Except.ok.injEq .. ▸ hok)
      subst h2
      exact ⟨rfl, rfl, rfl, rfl⟩
    · exact ⟨(r.data.drop (r.offset + r.slice_offset)).take k,
        ⟨r.data, r.slice_offset, r.offset + k, r.length⟩,
        by simp [read_bytes, check_read, if_neg h]⟩

/-- C7: every reader read operation (`read_bytes`, `read_uint8/16/32/64`,
`skip`) bounds-checks against the current window, raising
EndOfBufferException exactly when the requested length exceeds
`length - offset`, otherwise succeeding and advancing the cursor by the
length read; a reader over a zero-length window has `remaining() == 0` and
every typed read raises EndOfBufferException. -/
theorem reader_ops_bounds_checked (r : onestore_reader) (n : Nat)
    (hr : r.offset ≤ r.length) : ReaderOpsSpec r n := by
  have hb1 := read_bytes_spec r 1 hr
  have hb2 := read_bytes_spec r 2 hr
  have hb4 := read_bytes_spec r 4 hr
  have hb8 := read_bytes_spec r 8 hr
  have hbn := read_bytes_spec r n hr
  have hskip : ((∃ m, skip r n = .error (.endOfBufferException m)) ↔
      r.length - r.offset < n) ∧
      (∀ r2, skip r n = .ok r2 → r2.offset = r.offset + n ∧ r2.length = r.length) ∧
      (n ≤ r.length - r.offset → ∃ r2, skip r n = .ok r2) := by
    by_cases h : r.offset + n > r.length
    · refine ⟨⟨fun _ => by omega,
        fun _ => ⟨"Attempted read with too few bytes remaining in buffer",
          by simp [skip, check_read, if_pos h]⟩⟩,
        fun r2 hok => ?_, fun hk => by omega⟩
      simp [skip, check_read, if_pos h] at hok
    · refine ⟨⟨fun ⟨m, hm⟩ => ?_, fun hlt => by omega⟩, fun r2 hok => ?_,
        fun _ => ⟨⟨r.data, r.slice_offset, r.offset + n, r.length⟩,
          by simp [skip, check_read, if_neg h]⟩⟩
      · simp [skip, check_read, if_neg h] at hm
      · simp only [skip, check_read, if_neg h] at hok
        injection hok with h2
        subst h2
        exact ⟨rfl, rfl⟩
  have typed : ∀ (f : onestore_reader → Except ReaderError (Nat × onestore_reader))
      (w : Nat),
      (f r = match read_bytes r w with
        | .error e => .error e
        | .ok (bs, r2) => .ok (from_bytes_le bs, r2)) →
      ((∃ m, f r = .error (.endOfBufferException m)) ↔ r.length - r.offset < w) ∧
      (∀ v r2, f r = .ok (v, r2) → r2.offset = r.offset + w) := by
    intro f w hf
    rcases hrb : read_bytes r w with e | ⟨bs, r2⟩
    · obtain ⟨m, hm⟩ : ∃ m, e = .endOfBufferException m := by
        cases e with
        | endOfBufferException m => exact ⟨m, rfl⟩
      constructor
      · constructor
        · intro _
          exact (read_bytes_spec r w hr).1.mp ⟨m, by rw [hrb, hm]⟩
        · intro _
          exact ⟨m, by rw [hf, hrb, hm]⟩
      · intro v r2 hok
        rw [hf, hrb] at hok
        exact absurd hok (by simp)
    · constructor
      · constructor
        · rintro ⟨m, hm⟩
          rw [hf, hrb] at hm
          exact absurd hm (by simp)
        · intro hlt
          obtain ⟨m, hm⟩ := (read_bytes_spec r w hr).1.mpr hlt
          rw [hrb] at hm
          exact absurd hm (by simp)
      · intro v r2 hok
        rw [hf, hrb] at hok
        obtain ⟨-, h2⟩ := Prod.mk.injEq .. ▸ (Except.ok.injEq .. ▸ hok)
        subst h2
        exact ((read_bytes_spec r w hr).2.1 bs r2 hrb).1
  have h8 := typed read_uint8 1 (by rfl)
  have h16 := typed read_uint16 2 (by rfl)
  have h32 := typed read_uint32 4 (by rfl)
  have h64 := typed read_uint64 8 (by rfl)
  refine ⟨hbn.1, hbn.2.1, hbn.2.2, hskip.1, hskip.2.1, hskip.2.2,
    h8.1, h8.2, h16.1, h16.2, h32.1, h32.2, h64.1, h64.2, fun hlen => ?_⟩
  have hoff : r.offset = 0 := by omega
  refine ⟨by simp [remaining, hlen], ?_, ?_, ?_, ?_⟩
  · exact h8.1.mpr (by omega)
  · exact h16.1.mpr (by omega)
  · exact h32.1.mpr (by omega)
  · exact h64.1.mpr (by omega)

theorem reader_ops_bounds_checked_witness :
    (⟨[1, 2, 3], 0, 0, 3⟩ : onestore_reader).offset ≤
      (⟨[1, 2, 3], 0, 0, 3⟩ : onestore_reader).length ∧
    ReaderOpsSpec ⟨[1, 2, 3], 0, 0, 3⟩ 2 :=
  ⟨by decide, reader_ops_bounds_checked ⟨[1, 2, 3], 0, 0, 3⟩ 2 (by decide)⟩

/-! ## C10: per-object-space version-list invariants -/

/-- C10: after construction the versions list is sorted ascending by
last-modified timestamp (None ordered as 0), `version_timestamps[i]`
equals `versions[i].last_modified_timestamp` at every index, and no
encrypted revision appears in either list. -/
theorem build_versions_invariants (candidates : List RevisionBuilderCtx) :
    BuildVersionsSpec candidates := by
  have hsorted : List.Pairwise (fun a b => lmt a ≤ lmt b)
      (candidates.mergeSort (fun a b => decide (lmt a ≤ lmt b))) := by
    have h := @List.sorted_mergeSort RevisionBuilderCtx
      (fun a b => decide (lmt a ≤ lmt b))
      (fun a b c hab hbc => by
        simp only [decide_eq_true_eq] at hab hbc ⊢
        omega)
      (fun a b => by
        simp only [Bool.or_eq_true, decide_eq_true_eq]
        omega)
      candidates
    exact h.imp (by intro a b hab; simpa using hab)
  refine ⟨?_, rfl, ?_, ?_, ?_⟩
  · exact hsorted.filter _
  · simp [build_versions]
  · intro i h1 h2
    simp only [build_versions, List.get_eq_getElem, List.getElem_map]
  · intro v hv
    simp only [build_versions, List.mem_filter, Bool.not_eq_eq_eq_not, Bool.not_true] at hv
    simpa using hv.2

/-! ## C1: GetVersionByTimestamp -/

theorem lmt_eq_some (v : RevisionBuilderCtx) (h : v.last_modified_timestamp ≠ none) :
    v.last_modified_timestamp = some (lmt v) := by
  cases hv : v.last_modified_timestamp with
  | none => exact absurd hv h
  | some tv => simp [lmt, hv]

theorem find_le_desc (t : Nat) :
    ∀ L : List RevisionBuilderCtx, List.Pairwise (fun a b => lmt b ≤ lmt a) L →
    (∀ v, L.find? (fun rev => decide (lmt rev ≤ t)) = some v →
      v ∈ L ∧ lmt v ≤ t ∧ ∀ v2 ∈ L, lmt v2 ≤ t → lmt v2 ≤ lmt v) ∧
    (L.find? (fun rev => decide (lmt rev ≤ t)) = none → ∀ v ∈ L, t < lmt v) := by
  intro L
  induction L with
  | nil => exact fun _ => ⟨fun v h => by simp at h, fun _ v hv => by simp at hv⟩
  | cons a L ih =>
    intro hL
    rw [List.pairwise_cons] at hL
    obtain ⟨ha, hL2⟩ := hL
    have ih2 := ih hL2
    by_cases hpa : lmt a ≤ t
    · refine ⟨fun v hv => ?_, fun hnone => ?_⟩
      · rw [List.find?_cons_of_pos _ (by simpa using hpa)] at hv
        injection hv with hv
        subst hv
        refine ⟨List.mem_cons_self a L, hpa, fun v2 hv2 _ => ?_⟩
        rcases List.mem_cons.mp hv2 with rfl | hmem
        · exact le_refl _
        · exact ha v2 hmem
      · rw [List.find?_cons_of_pos _ (by simpa using hpa)] at hnone
        exact absurd hnone (by simp)
    · refine ⟨fun v hv => ?_, fun hnone => ?_⟩
      · rw [List.find?_cons_of_neg _ (by simpa using hpa)] at hv
        obtain ⟨hm, hle, hall⟩ := ih2.1 v hv
        refine ⟨List.mem_cons_of_mem a hm, hle, fun v2 hv2 h2t => ?_⟩
        rcases List.mem_cons.mp hv2 with rfl | hmem
        · exact absurd h2t hpa
        · exact hall v2 hmem h2t
      · rw [List.find?_cons_of_neg _ (by simpa using hpa)] at hnone
        intro v hv
        rcases List.mem_cons.mp hv with rfl | hmem
        · omega
        · exact ih2.2 hnone v hmem

theorem find_ge_asc (t : Nat) :
    ∀ L : List RevisionBuilderCtx, List.Pairwise (fun a b => lmt a ≤ lmt b) L →
    (∀ v, L.find? (fun rev => decide (lmt rev ≥ t)) = some v →
      v ∈ L ∧ t ≤ lmt v ∧ ∀ v2 ∈ L, t ≤ lmt v2 → lmt v ≤ lmt v2) ∧
    (L.find? (fun rev => decide (lmt rev ≥ t)) = none → ∀ v ∈ L, lmt v < t) := by
  intro L
  induction L with
  | nil => exact fun _ => ⟨fun v h => by simp at h, fun _ v hv => by simp at hv⟩
  | cons a L ih =>
    intro hL
    rw [List.pairwise_cons] at hL
    obtain ⟨ha, hL2⟩ := hL
    have ih2 := ih hL2
    by_cases hpa : t ≤ lmt a
    · refine ⟨fun v hv => ?_, fun hnone => ?_⟩
      · rw [List.find?_cons_of_pos _ (by simpa using hpa)] at hv
        injection hv with hv
        subst hv
        refine ⟨List.mem_cons_self a L, hpa, fun v2 hv2 _ => ?_⟩
        rcases List.mem_cons.mp hv2 with rfl | hmem
        · exact le_refl _
        · exact ha v2 hmem
      · rw [List.find?_cons_of_pos _ (by simpa using hpa)] at hnone
        exact absurd hnone (by simp)
    · refine ⟨fun v hv => ?_, fun hnone => ?_⟩
      · rw [List.find?_cons_of_neg _ (by simpa using hpa)] at hv
        obtain ⟨hm, hle, hall⟩ := ih2.1 v hv
        refine ⟨List.mem_cons_of_mem a hm, hle, fun v2 hv2 h2t => ?_⟩
        rcases List.mem_cons.mp hv2 with rfl | hmem
        · exact absurd h2t hpa
        · exact hall v2 hmem h2t
      · rw [List.find?_cons_of_neg _ (by simpa using hpa)] at hnone
        intro v hv
        rcases List.mem_cons.mp hv with rfl | hmem
        · omega
        · exact ih2.2 hnone v hmem

theorem find_exact_spec (t : Nat) :
    ∀ L : List RevisionBuilderCtx, List.Pairwise (fun a b => lmt a ≤ lmt b) L →
    (∀ v, find_version_exact L t = some v → v ∈ L ∧ lmt v = t) ∧
    (find_version_exact L t = none → ∀ v ∈ L, lmt v ≠ t) := by
  intro L
  induction L with
  | nil => exact fun _ => ⟨fun v h => by simp [find_version_exact] at h,
      fun _ v hv => by simp at hv⟩
  | cons a L ih =>
    intro hL
    rw [List.pairwise_cons] at hL
    obtain ⟨ha, hL2⟩ := hL
    have ih2 := ih hL2
    by_cases h1 : lmt a > t
    · refine ⟨fun v hv => ?_, fun _ v hv => ?_⟩
      · rw [find_version_exact, if_pos h1] at hv
        exact absurd hv (by simp)
      · rcases List.mem_cons.mp hv with rfl | hmem
        · omega
        · have := ha v hmem
          omega
    · by_cases h2 : lmt a = t
      · refine ⟨fun v hv => ?_, fun hnone => ?_⟩
        · rw [find_version_exact, if_neg h1, if_pos h2] at hv
          injection hv with hv
          subst hv
          exact ⟨List.mem_cons_self a L, h2⟩
        · rw [find_version_exact, if_neg h1, if_pos h2] at hnone
          exact absurd hnone (by simp)
      · refine ⟨fun v hv => ?_, fun hnone => ?_⟩
        · rw [find_version_exact, if_neg h1, if_neg h2] at hv
          obtain ⟨hm, he⟩ := ih2.1 v hv
          exact ⟨List.mem_cons_of_mem a hm, he⟩
        · rw [find_version_exact, if_neg h1, if_neg h2] at hnone
          intro v hv
          rcases List.mem_cons.mp hv with rfl | hmem
          · exact h2
          · exact ih2.2 hnone v hmem

/-- C1: on a version list sorted ascending by last-modified timestamp (all
timestamps present), `GetVersionByTimestamp(t, upper_bound=True)` returns
the most recent version with timestamp `≤ t` and no other version has a
timestamp in `(v.ts, t]` (None when all timestamps exceed `t`);
`lower_bound=True` returns the least recent version with timestamp `≥ t`;
with neither flag it returns a version with timestamp exactly `t`, else
None. -/
theorem version_lookup_correct (versions : List RevisionBuilderCtx) (t : Nat)
    (hsorted : List.Pairwise (fun a b => lmt a ≤ lmt b) versions)
    (hts : ∀ v ∈ versions, v.last_modified_timestamp ≠ none) :
    VersionLookupSpec versions t := by
  have hrev : List.Pairwise (fun a b => lmt b ≤ lmt a) versions.reverse := by
    rw [List.pairwise_reverse]
    exact hsorted
  have hupper := find_le_desc t versions.reverse hrev
  have hlower := find_ge_asc t versions hsorted
  have hexact := find_exact_spec t versions hsorted
  refine ⟨?_, ?_, ?_⟩
  · show match versions.reverse.find? (fun rev => decide (lmt rev ≤ t)) with
      | some v => v ∈ versions ∧ ∃ tv, v.last_modified_timestamp = some tv ∧ tv ≤ t ∧
          ∀ v2 ∈ versions, ∀ tv2, v2.last_modified_timestamp = some tv2 → ¬(tv < tv2 ∧ tv2 ≤ t)
      | none => ∀ v ∈ versions, ∀ tv, v.last_modified_timestamp = some tv → t < tv
    rcases hfind : versions.reverse.find? (fun rev => decide (lmt rev ≤ t)) with _ | v
    · intro v hv tv htv
      have := hupper.2 hfind v (List.mem_reverse.mpr hv)
      have : lmt v = tv := by simp [lmt, htv]
      omega
    · obtain ⟨hm, hle, hall⟩ := hupper.1 v hfind
      have hvmem := List.mem_reverse.mp hm
      refine ⟨hvmem, lmt v, lmt_eq_some v (hts v hvmem), hle, ?_⟩
      intro v2 hv2 tv2 htv2 ⟨hgt, hle2⟩
      have h2 : lmt v2 = tv2 := by simp [lmt, htv2]
      have := hall v2 (List.mem_reverse.mpr hv2) (by omega)
      omega
  · show match versions.find? (fun rev => decide (lmt rev ≥ t)) with
      | some v => v ∈ versions ∧ ∃ tv, v.last_modified_timestamp = some tv ∧ t ≤ tv ∧
          ∀ v2 ∈ versions, ∀ tv2, v2.last_modified_timestamp = some tv2 → t ≤ tv2 → tv ≤ tv2
      | none => ∀ v ∈ versions, ∀ tv, v.last_modified_timestamp = some tv → tv < t
    rcases hfind : versions.find? (fun rev => decide (lmt rev ≥ t)) with _ | v
    · intro v hv tv htv
      have := hlower.2 hfind v hv
      have : lmt v = tv := by simp [lmt, htv]
      omega
    · obtain ⟨hm, hle, hall⟩ := hlower.1 v hfind
      refine ⟨hm, lmt v, lmt_eq_some v (hts v hm), hle, ?_⟩
      intro v2 hv2 tv2 htv2 hge
      have h2 : lmt v2 = tv2 := by simp [lmt, htv2]
      have := hall v2 hv2 (by omega)
      omega
  · show match find_version_exact versions t with
      | some v => v ∈ versions ∧ v.last_modified_timestamp = some t
      | none => ∀ v ∈ versions, v.last_modified_timestamp ≠ some t
    rcases hfind : find_version_exact versions t with _ | v
    · intro v hv htv
      have h2 : lmt v = t := by simp [lmt, htv]
      exact hexact.2 hfind v hv h2
    · obtain ⟨hm, he⟩ := hexact.1 v hfind
      exact ⟨hm, by rw [lmt_eq_some v (hts v hm), he]⟩

theorem version_lookup_correct_witness :
    List.Pairwise (fun a b => lmt a ≤ lmt b)
      [(⟨1, some 10, false, none, none, "a", 0, 0⟩ : RevisionBuilderCtx),
       ⟨2, some 20, false, none, none, "b", 0, 1⟩] ∧
    VersionLookupSpec
      [⟨1, some 10, false, none, none, "a", 0, 0⟩,
       ⟨2, some 20, false, none, none, "b", 0, 1⟩] 15 :=
  ⟨by decide, version_lookup_correct _ 15 (by decide) (by decide)⟩

theorem build_versions_invariants_witness :
    BuildVersionsSpec
      [⟨1, some 20, false, none, none, "a", 0, 0⟩,
       ⟨2, none, true, none, none, "b", 0, 1⟩,
       ⟨3, some 5, false, none, none, "c", 0, 2⟩] :=
  build_versions_invariants _

/-! ## C2: revision coalescing in GetVersions -/

/-- C2: the previously emitted version is updated in place (directory
replaced, LastModifiedTimeStamp set to `t`) exactly when a previous
version exists, the authors are compatible (one is None or they are
equal), and `t` equals the previous LastModifiedTimeStamp or
`t - CreatedTimeStamp < combine_revisions_time_span`; otherwise a new
entry `{directory, CreatedTimeStamp = t, LastModifiedTimeStamp = t,
Author}` is appended.  Two revisions by "Alice" 30 minutes apart under a
60-minute span coalesce into one version stamped with the later
timestamp, and an author change (Alice then Bob, 60 minutes apart under a
90-minute span) starts a new version. -/
theorem emit_version_coalescing :
    (∀ versions span tree t author, EmitVersionSpec versions span tree t author) ∧
    emit_version
        (emit_version [] (combine_span_filetime 60) 7 131651230000000000 (some "Alice"))
        (combine_span_filetime 60) 8 (131651230000000000 + 18000000000) (some "Alice") =
      [⟨8, 131651230000000000, 131651230000000000 + 18000000000, some "Alice"⟩] ∧
    (emit_version
        (emit_version [] (combine_span_filetime 90) 7 131651230000000000 (some "Alice"))
        (combine_span_filetime 90) 8 (131651230000000000 + 36000000000)
        (some "Bob")).length = 2 := by
  refine ⟨fun versions span tree t author => ?_, by decide, by decide⟩
  constructor
  · intro hnone
    simp only [emit_version, hnone]
  · intro rev hlast
    refine ⟨fun hclaim => ?_, fun hnclaim => ?_, fun h1 h2 h3 => ?_⟩
    · have hnc : ¬((t ≠ rev.LastModifiedTimeStamp ∧
          t - rev.CreatedTimeStamp ≥ span) ∨
          (rev.Author ≠ none ∧ author ≠ none ∧ rev.Author ≠ author)) := by
        obtain ⟨hauth, htime⟩ := hclaim
        rintro (⟨hne, hge⟩ | ⟨ha1, ha2, ha3⟩)
        · rcases htime with heq | hlt
          · exact hne heq
          · omega
        · rcases hauth with h | h | h
          · exact ha1 h
          · exact ha2 h
          · exact ha3 h
      simp only [emit_version, hlast, if_neg hnc]
    · have hc : (t ≠ rev.LastModifiedTimeStamp ∧
          t - rev.CreatedTimeStamp ≥ span) ∨
          (rev.Author ≠ none ∧ author ≠ none ∧ rev.Author ≠ author) := by
        by_cases hauth : rev.Author = none ∨ author = none ∨ rev.Author = author
        · left
          constructor
          · intro heq
            exact hnclaim ⟨hauth, Or.inl heq⟩
          · by_contra hlt
            exact hnclaim ⟨hauth, Or.inr (by omega)⟩
        · right
          push_neg at hauth
          exact ⟨hauth.1, hauth.2.1, hauth.2.2⟩
      simp only [emit_version, hlast, if_pos hc]
    · have hc : (t ≠ rev.LastModifiedTimeStamp ∧
          t - rev.CreatedTimeStamp ≥ span) ∨
          (rev.Author ≠ none ∧ author ≠ none ∧ rev.Author ≠ author) :=
        Or.inr ⟨h1, h2, h3⟩
      simp only [emit_version, hlast, if_pos hc]

/-! ## C3: encrypted revisions and the object-group skip -/

theorem loop1_encrypted_group_hangs (odcs : Nat) (hodcs : odcs ≠ 0) :
    ∀ fuel gid rest gs rs,
    revision_manifest_loop1 odcs fuel (.objectGroupListRef gid) rest gs rs = none := by
  intro fuel
  induction fuel with
  | zero => intro gid rest gs rs; rfl
  | succ fuel ih =>
    intro gid rest gs rs
    simp only [revision_manifest_loop1, hodcs, reduceCtorEq, if_false, ne_eq,
      not_false_eq_true, if_true]
    exact ih gid rest gs rs

/-- C3 (code bug): an encrypted revision (`odcsDefault != 0`) whose node
stream contains an ObjectGroupListReferenceFND never finishes decoding:
the skip branch executes `continue` without advancing the node iterator,
so the first decode loop re-examines the same node forever (result `none`
for every fuel).  The same stream with `odcsDefault == 0` decodes
normally, which shows the `continue` is the only obstruction. -/
theorem encrypted_revision_skip_hangs :
    (∀ fuel rid gid,
      RevisionManifest_decode fuel [] rid NULL_ExGUID 1
        [.objectGroupListRef gid, .revisionManifestEnd] = none) ∧
    (∀ rid gid,
      RevisionManifest_decode 4 [] rid NULL_ExGUID 0
        [.objectGroupListRef gid, .revisionManifestEnd] =
      some (.ok ⟨rid, NULL_ExGUID, 0, none, [(gid, gid)], [], none, none⟩)) := by
  constructor
  · intro fuel rid gid
    have h1 := loop1_encrypted_group_hangs 1 (by decide) fuel gid
      [.revisionManifestEnd] [] []
    simp [RevisionManifest_decode, revision_manifest_prologue,
      RevisionManifest_decode_body, h1]
  · intro rid gid
    rfl

/-! ## C4: dependent-revision resolution -/

theorem loop1_no_mismatch (odcs : Nat) :
    ∀ fuel node rest gs rs m,
    revision_manifest_loop1 odcs fuel node rest gs rs ≠
      some (.error (.revisionMismatch m)) := by
  intro fuel
  induction fuel with
  | zero => intro node rest gs rs m h; simp [revision_manifest_loop1] at h
  | succ fuel ih =>
    intro node rest gs rs m h
    cases node with
    | objectGroupListRef gid =>
      simp only [revision_manifest_loop1] at h
      rw [if_neg (by simp)] at h
      by_cases ho : odcs ≠ 0
      · rw [if_pos ho] at h
        exact ih _ _ _ _ _ h
      · rw [if_neg ho] at h
        cases rest with
        | nil => simp at h
        | cons n2 r2 => exact ih _ _ _ _ _ h
    | objectInfoDepOverrides =>
      cases rest with
      | nil => simp [revision_manifest_loop1] at h
      | cons n2 r2 => exact ih n2 r2 gs rs m h
    | rootObjectRef2 role coid =>
      cases rest with
      | nil => simp [revision_manifest_loop1] at h
      | cons n2 r2 => exact ih n2 r2 gs (alist_insert rs role coid) m h
    | revisionManifestEnd => simp [revision_manifest_loop1] at h
    | rootObjectRef3 role oidRoot => simp [revision_manifest_loop1] at h
    | globalIdTableStart => simp [revision_manifest_loop1] at h
    | globalIdTableEntry index guid => simp [revision_manifest_loop1] at h
    | globalIdTableEnd => simp [revision_manifest_loop1] at h
    | dataSignatureGroupDef sig => simp [revision_manifest_loop1] at h
    | objectDeclRefCount => simp [revision_manifest_loop1] at h
    | objectRevisionRefCount => simp [revision_manifest_loop1] at h
    | encryptionKeyV2 => simp [revision_manifest_loop1] at h

theorem loop2_no_mismatch :
    ∀ rest node rs tbl dsg m,
    revision_manifest_loop2 node rest rs tbl dsg ≠
      .error (.revisionMismatch m) := by
  intro rest
  induction rest with
  | nil =>
    intro node rs tbl dsg m h
    cases node with
    | rootObjectRef2 role coid =>
      cases tbl with
      | none => simp [revision_manifest_loop2] at h
      | some table =>
        simp only [revision_manifest_loop2] at h
        rw [if_neg (by simp)] at h
        cases htl : alist_lookup table coid with
        | none => rw [htl] at h; simp at h
        | some oid => rw [htl] at h; simp at h
    | revisionManifestEnd => simp [revision_manifest_loop2] at h
    | objectGroupListRef gid => simp [revision_manifest_loop2] at h
    | objectInfoDepOverrides => simp [revision_manifest_loop2] at h
    | rootObjectRef3 role oidRoot => simp [revision_manifest_loop2] at h
    | globalIdTableStart => simp [revision_manifest_loop2] at h
    | globalIdTableEntry index guid => simp [revision_manifest_loop2] at h
    | globalIdTableEnd => simp [revision_manifest_loop2] at h
    | dataSignatureGroupDef sig => simp [revision_manifest_loop2] at h
    | objectDeclRefCount => simp [revision_manifest_loop2] at h
    | objectRevisionRefCount => simp [revision_manifest_loop2] at h
    | encryptionKeyV2 => simp [revision_manifest_loop2] at h
  | cons n2 r2 ih =>
    intro node rs tbl dsg m h
    cases node with
    | objectInfoDepOverrides => exact ih _ _ _ _ _ h
    | rootObjectRef3 role oidRoot => exact ih _ _ _ _ _ h
    | dataSignatureGroupDef sig => exact ih _ _ _ _ _ h
    | objectDeclRefCount => exact ih _ _ _ _ _ h
    | objectRevisionRefCount => exact ih _ _ _ _ _ h
    | rootObjectRef2 role coid =>
      cases tbl with
      | none => simp [revision_manifest_loop2] at h
      | some table =>
        simp only [revision_manifest_loop2] at h
        rw [if_neg (by simp)] at h
        cases htl : alist_lookup table coid with
        | none => rw [htl] at h; simp at h
        | some oid => rw [htl] at h; exact ih _ _ _ _ _ h
    | revisionManifestEnd => simp [revision_manifest_loop2] at h
    | objectGroupListRef gid => simp [revision_manifest_loop2] at h
    | globalIdTableStart => simp [revision_manifest_loop2] at h
    | globalIdTableEntry index guid => simp [revision_manifest_loop2] at h
    | globalIdTableEnd => simp [revision_manifest_loop2] at h
    | encryptionKeyV2 => simp [revision_manifest_loop2] at h

theorem consume_no_mismatch :
    ∀ nodes acc m, consume_global_id_table nodes acc ≠
      .error (.revisionMismatch m) := by
  intro nodes
  induction nodes with
  | nil => intro acc m h; simp [consume_global_id_table] at h
  | cons node rest ih =>
    intro acc m h
    cases node with
    | globalIdTableEnd => simp [consume_global_id_table] at h
    | globalIdTableEntry index guid =>
      exact ih _ _ (by simpa [consume_global_id_table] using h)
    | objectGroupListRef gid => simp [consume_global_id_table] at h
    | objectInfoDepOverrides => simp [consume_global_id_table] at h
    | rootObjectRef2 role coid => simp [consume_global_id_table] at h
    | rootObjectRef3 role oidRoot => simp [consume_global_id_table] at h
    | globalIdTableStart => simp [consume_global_id_table] at h
    | dataSignatureGroupDef sig => simp [consume_global_id_table] at h
    | objectDeclRefCount => simp [consume_global_id_table] at h
    | objectRevisionRefCount => simp [consume_global_id_table] at h
    | encryptionKeyV2 => simp [consume_global_id_table] at h
    | revisionManifestEnd => simp [consume_global_id_table] at h

theorem decode_body_no_mismatch (fuel : Nat) (rid ridDependent : ExGUID)
    (odcsDefault : Nat) (dep : Option ExGUID)
    (prev_table : Option (List (Nat × Nat))) (root0 : List (Nat × Nat))
    (node1 : FileNode) (rest1 : List FileNode) (m : String) :
    RevisionManifest_decode_body fuel rid ridDependent odcsDefault dep
      prev_table root0 node1 rest1 ≠ some (.error (.revisionMismatch m)) := by
  intro h
  rw [RevisionManifest_decode_body] at h
  split at h
  · exact Option.noConfusion h
  · rename_i e1 heq
    injection h with h
    injection h with h
    exact loop1_no_mismatch odcsDefault fuel node1 rest1 [] root0 m (by rw [heq, h])
  · rename_i node2 rest2 gs roots1 heq
    split at h
    · split at h
      · rename_i e2 hc
        injection h with h
        injection h with h
        exact consume_no_mismatch rest2 (prev_table.getD []) m (by rw [hc, h])
      · rename_i table rest3 hc
        split at h
        · simp at h
        · rename_i node3 rest4
          split at h
          · rename_i e3 hl2
            injection h with h
            injection h with h
            exact loop2_no_mismatch rest4 node3 roots1 (some table) none m (by rw [hl2, h])
          · simp at h
    · split at h
      · rename_i e3 hl2
        injection h with h
        injection h with h
        exact loop2_no_mismatch rest2 node2 roots1 none none m (by rw [hl2, h])
      · simp at h

/-- C4: with `rid_dependent != NULL_ExGUID`, the decode raises
RevisionMismatch exactly when no already-decoded revision has that rid;
an existing dependent with a different odcsDefault fails the decode (the
source's `assert`); on success the new revision's root objects start as a
copy of the dependent's root-object map. -/
theorem dependent_revision_checks (fuel : Nat)
    (revisions : List (ExGUID × RevisionManifest)) (rid ridDependent : ExGUID)
    (odcsDefault : Nat) (nodes : List FileNode) :
    DependentRevisionSpec fuel revisions rid ridDependent odcsDefault nodes := by
  refine ⟨?_, ?_, ?_, ?_⟩
  · intro hne hnone
    have hp : revision_manifest_prologue revisions ridDependent odcsDefault =
        .error (.revisionMismatch "Dependent revision not present") := by
      simp [revision_manifest_prologue, if_pos hne, hnone]
    simp [RevisionManifest_decode, hp]
  · intro m h
    rcases hp : revision_manifest_prologue revisions ridDependent odcsDefault
      with e | ⟨dep, tbl, roots⟩
    · have he : e = .revisionMismatch m := by
        simp only [RevisionManifest_decode, hp, Option.some.injEq,
          Except.error.injEq] at h
        exact h
      subst he
      by_cases hne : ridDependent ≠ NULL_ExGUID
      · refine ⟨hne, ?_⟩
        cases hl : alist_lookup revisions ridDependent with
        | none => rfl
        | some dep =>
          exfalso
          simp only [revision_manifest_prologue, if_pos hne, hl] at hp
          by_cases ho : odcsDefault = dep.odcsDefault
          · rw [if_pos ho] at hp
            exact Except.noConfusion hp
          · rw [if_neg ho] at hp
            simp at hp
      · rw [revision_manifest_prologue, if_neg hne] at hp
        exact Except.noConfusion hp
    · exfalso
      cases nodes with
      | nil =>
        simp only [RevisionManifest_decode, hp] at h
        simp at h
      | cons node rest =>
        simp only [RevisionManifest_decode, hp] at h
        by_cases henc : node = .encryptionKeyV2
        · rw [if_pos henc] at h
          cases rest with
          | nil => simp at h
          | cons n2 r2 =>
            exact decode_body_no_mismatch fuel rid ridDependent odcsDefault dep
              tbl roots n2 r2 m h
        · rw [if_neg henc] at h
          exact decode_body_no_mismatch fuel rid ridDependent odcsDefault dep
            tbl roots node rest m h
  · intro dep hne hlookup hodcs
    have hp : revision_manifest_prologue revisions ridDependent odcsDefault =
        .error (.assertionFailed "self.odcsDefault == dep_revision.odcsDefault") := by
      simp [revision_manifest_prologue, if_pos hne, hlookup, if_neg hodcs]
    exact ⟨"self.odcsDefault == dep_revision.odcsDefault",
      by simp [RevisionManifest_decode, hp]⟩
  · intro dep hne hlookup hodcs
    simp [revision_manifest_prologue, if_pos hne, hlookup, if_pos hodcs]

theorem dependent_revision_checks_witness :
    DependentRevisionSpec 3
      [(⟨7, 1⟩, ⟨⟨7, 1⟩, NULL_ExGUID, 0, none, [], [(1, 42)], none, none⟩)]
      ⟨8, 1⟩ ⟨7, 1⟩ 0 [.revisionManifestEnd] :=
  dependent_revision_checks 3 _ _ _ 0 _

/-! ## C9 and C5: object builder -/

theorem objectNotFound_needs_missing (rev : List (Nat × PropertySet)) :
    ∀ fuel,
    (∀ obj_dict oid? m, GetObjectReference rev fuel obj_dict oid? =
        some (.error (.objectNotFound m)) →
      ∃ oid, alist_lookup rev oid = none ∧
        m = "Object " ++ Nat.repr oid ++ " not found in revision") ∧
    (∀ obj_dict children m, make_object_children rev fuel obj_dict children =
        some (.error (.objectNotFound m)) →
      ∃ oid, alist_lookup rev oid = none ∧
        m = "Object " ++ Nat.repr oid ++ " not found in revision") := by
  intro fuel
  induction fuel with
  | zero =>
    have hG : ∀ obj_dict oid? m, GetObjectReference rev 0 obj_dict oid? =
        some (.error (.objectNotFound m)) →
        ∃ oid, alist_lookup rev oid = none ∧
          m = "Object " ++ Nat.repr oid ++ " not found in revision" := by
      intro obj_dict oid? m h
      cases oid? with
      | none => simp [GetObjectReference] at h
      | some oid =>
        simp only [GetObjectReference] at h
        split at h
        · simp at h
        · simp at h
        · split at h
          · rename_i hrev
            simp only [Option.some.injEq, Except.error.injEq,
              BuildError.objectNotFound.injEq] at h
            exact ⟨oid, hrev, h.symm⟩
          · simp at h
    refine ⟨hG, ?_⟩
    intro obj_dict children m h
    induction children generalizing obj_dict with
    | nil => simp [make_object_children] at h
    | cons c cs ihc =>
      simp only [make_object_children] at h
      split at h
      · simp at h
      · rename_i e heq
        have he : e = .objectNotFound m := by
          simp only [Option.some.injEq, Except.error.injEq] at h
          exact h
        exact hG _ c m (by rw [heq, he])
      · rename_i obj? dict2 heq
        split at h
        · simp at h
        · rename_i e heq2
          have he : e = .objectNotFound m := by
            simp only [Option.some.injEq, Except.error.injEq] at h
            exact h
          exact ihc dict2 (by rw [heq2, he])
        · simp at h
  | succ fuel ih =>
    have hG : ∀ obj_dict oid? m, GetObjectReference rev (fuel + 1) obj_dict oid? =
        some (.error (.objectNotFound m)) →
        ∃ oid, alist_lookup rev oid = none ∧
          m = "Object " ++ Nat.repr oid ++ " not found in revision" := by
      intro obj_dict oid? m h
      cases oid? with
      | none => simp [GetObjectReference] at h
      | some oid =>
        simp only [GetObjectReference] at h
        split at h
        · simp at h
        · simp at h
        · split at h
          · rename_i hrev
            simp only [Option.some.injEq, Except.error.injEq,
              BuildError.objectNotFound.injEq] at h
            exact ⟨oid, hrev, h.symm⟩
          · rename_i ps hrev
            split at h
            · simp at h
            · rename_i e heq
              have he : e = .objectNotFound m := by
                simp only [Option.some.injEq, Except.error.injEq] at h
                exact h
              exact ih.2 _ ps.children m (by rw [heq, he])
            · simp at h
    refine ⟨hG, ?_⟩
    intro obj_dict children m h
    induction children generalizing obj_dict with
    | nil => simp [make_object_children] at h
    | cons c cs ihc =>
      simp only [make_object_children] at h
      split at h
      · simp at h
      · rename_i e heq
        have he : e = .objectNotFound m := by
          simp only [Option.some.injEq, Except.error.injEq] at h
          exact h
        exact hG _ c m (by rw [heq, he])
      · rename_i obj? dict2 heq
        split at h
        · simp at h
        · rename_i e heq2
          have he : e = .objectNotFound m := by
            simp only [Option.some.injEq, Except.error.injEq] at h
            exact h
          exact ihc dict2 (by rw [heq2, he])
        · simp at h

/-- C9: `GetObjectReference(None)` returns None without raising, so
`GetRootObject` for an absent role returns None; ObjectNotFound is raised
only for a non-null oid whose property set cannot be resolved within the
revision: the oid its message names has no property set there, and
conversely a requested oid that is neither in the object dictionary nor
resolvable raises exactly that exception. -/
theorem object_reference_null_safe (rev : List (Nat × PropertySet)) (fuel : Nat)
    (obj_dict : List (Nat × Slot)) (root_objects : List (Nat × Nat)) (role : Nat) :
    ObjectRefSpec rev fuel obj_dict root_objects role := by
  have h1 : GetObjectReference rev fuel obj_dict none = some (.ok (none, obj_dict)) := by
    simp [GetObjectReference]
  refine ⟨h1, fun habs => by rw [habs]; exact h1, fun oid? m h => ?_,
    fun oid hdict hrev => ?_⟩
  · constructor
    · intro habs
      rw [habs, h1] at h
      simp at h
    · exact (objectNotFound_needs_missing rev fuel).1 obj_dict oid? m h
  · simp [GetObjectReference, hdict, hrev]

theorem object_reference_null_safe_witness :
    ObjectRefSpec [(1, ⟨10, []⟩)] 2 [] [(1, 5)] 4 :=
  object_reference_null_safe [(1, ⟨10, []⟩)] 2 [] [(1, 5)] 4

/-- C5: `GetObjectReference` inserts a sentinel before recursing and a
re-entry on an in-progress oid raises CircularObjectReferenceException
with the message "Circular reference to object ..."; construction success
replaces the sentinel with the built object; a self-referencing object
always fails with that error, which exits with code 1 at the top level. -/
theorem cycle_detection (rev : List (Nat × PropertySet)) (fuel : Nat)
    (obj_dict : List (Nat × Slot)) (oid : Nat) (jcid : Nat) :
    CycleDetectSpec rev fuel obj_dict oid jcid := by
  refine ⟨fun hsent => ?_, fun obj dict2 h => ?_, ?_, rfl⟩
  · simp [GetObjectReference, hsent]
  · simp only [GetObjectReference] at h
    split at h
    · simp at h
    · rename_i obj0 heq
      simp only [Option.some.injEq, Except.ok.injEq, Prod.mk.injEq] at h
      obtain ⟨h1, h2⟩ := h
      subst h1
      subst h2
      exact heq
    · split at h
      · simp at h
      · rename_i ps hrev
        split at h
        · simp at h
        · rename_i fuel2 hfuel
          split at h
          · simp at h
          · simp at h
          · rename_i children dict3 heq
            simp only [Option.some.injEq, Except.ok.injEq, Prod.mk.injEq] at h
            obtain ⟨h1, h2⟩ := h
            subst h2
            have h1b : BuiltObject.node oid ps.jcid children = obj := by simpa using h1
            subst h1b
            exact alist_lookup_insert_self dict3 oid _
  · have hsent2 : alist_lookup (alist_insert ([] : List (Nat × Slot)) oid Slot.sentinel)
        oid = some Slot.sentinel := alist_lookup_insert_self [] oid Slot.sentinel
    have hrev : alist_lookup [(oid, (⟨jcid, [some oid]⟩ : PropertySet))] oid =
        some ⟨jcid, [some oid]⟩ := by simp [alist_lookup]
    have hinner : GetObjectReference [(oid, ⟨jcid, [some oid]⟩)] fuel
        (alist_insert [] oid Slot.sentinel) (some oid) =
        some (.error (.circularObjectReference
          ("Circular reference to object " ++ Nat.repr oid))) := by
      simp [GetObjectReference, hsent2]
    simp [GetObjectReference, make_object_children, alist_lookup, alist_insert,
      hrev, hsent2, hinner]

theorem cycle_detection_witness : CycleDetectSpec [] 3 [(2, .sentinel)] 2 9 :=
  cycle_detection [] 3 [(2, .sentinel)] 2 9

/-! ## C8: conflict-bucket handling in GetVersions -/

theorem repr_lt_100_ne : ∀ i < 100, ∀ j < 100, i < j → Nat.repr i ≠ Nat.repr j := by
  decide

theorem ext_guid_ne (guid : String) {i j : Nat} (hi : i < 100) (hj : j < 100)
    (hij : i ≠ j) : ext_guid guid i ≠ ext_guid guid j := by
  intro he
  have hd := congrArg String.data he
  simp only [ext_guid, String.data_append] at hd
  have hr : (Nat.repr i).data = (Nat.repr j).data := List.append_cancel_left hd
  have hrs : Nat.repr i = Nat.repr j := by
    cases hri : Nat.repr i
    cases hrj : Nat.repr j
    rw [hri, hrj] at hr
    simp only [] at hr
    exact congrArg String.mk hr
  rcases Nat.lt_or_ge i j with h | h
  · exact repr_lt_100_ne i hi j hj h hrs
  · have hj2 : j < i := by omega
    exact repr_lt_100_ne j hj i hi hj2 hrs.symm

theorem find?_congr {α : Type} :
    ∀ (l : List α) (p q : α → Bool), (∀ x ∈ l, p x = q x) →
    l.find? p = l.find? q := by
  intro l
  induction l with
  | nil => intro p q _; rfl
  | cons a l ih =>
    intro p q hpq
    have ha := hpq a (List.mem_cons_self a l)
    cases hp : p a with
    | true =>
      rw [List.find?_cons_of_pos _ hp, List.find?_cons_of_pos _ (by rw [← ha]; exact hp)]
    | false =>
      rw [List.find?_cons_of_neg _ (by simp [hp]),
        List.find?_cons_of_neg _ (by simp [← ha, hp]),
        ih p q (fun x hx => hpq x (List.mem_cons_of_mem a hx))]

theorem range_find?_some (p : Nat → Bool) :
    ∀ n s k, (List.range' s n).find? p = some k →
    s ≤ k ∧ k < s + n ∧ p k = true ∧ ∀ j, s ≤ j → j < k → p j = false := by
  intro n
  induction n with
  | zero => intro s k h; simp [List.range'] at h
  | succ n ih =>
    intro s k h
    rw [List.range'_succ] at h
    cases hp : p s with
    | true =>
      rw [List.find?_cons_of_pos _ hp] at h
      injection h with h
      subst h
      exact ⟨Nat.le_refl s, by omega, hp, fun j h1 h2 => by omega⟩
    | false =>
      rw [List.find?_cons_of_neg _ (by simp [hp])] at h
      obtain ⟨h1, h2, h3, h4⟩ := ih (s + 1) k h
      refine ⟨by omega, by omega, h3, fun j hj1 hj2 => ?_⟩
      rcases Nat.eq_or_lt_of_le hj1 with rfl | hj3
      · exact hp
      · exact h4 j (by omega) hj2

theorem range_find?_none (p : Nat → Bool) :
    ∀ n s, (List.range' s n).find? p = none →
    ∀ j, s ≤ j → j < s + n → p j = false := by
  intro n
  induction n with
  | zero => intro s _ j h1 h2; omega
  | succ n ih =>
    intro s h j h1 h2
    rw [List.range'_succ] at h
    cases hp : p s with
    | true => rw [List.find?_cons_of_pos _ hp] at h; exact absurd h (by simp)
    | false =>
      rw [List.find?_cons_of_neg _ (by simp [hp])] at h
      rcases Nat.eq_or_lt_of_le h1 with rfl | h3
      · exact hp
      · exact ih (s + 1) h j (by omega) (by omega)

theorem conflict_loop_eq (guid : String) (rev : RevisionBuilderCtx) :
    ∀ n i tree, 100 - i ≤ n →
    conflict_bucket_loop tree guid rev i =
      (match (List.range' i (100 - i)).find?
          (fun j => (alist_lookup tree (ext_guid guid j)).isNone) with
       | some k => alist_insert tree (ext_guid guid k) rev
       | none => tree) := by
  intro n
  induction n with
  | zero =>
    intro i tree hn
    rw [conflict_bucket_loop, dif_neg (by omega)]
    have h0 : 100 - i = 0 := by omega
    rw [h0]
    simp [List.range']
  | succ n ih =>
    intro i tree hn
    by_cases hi : i < 100
    · rw [conflict_bucket_loop, dif_pos hi]
      have hr : 100 - i = (100 - (i + 1)) + 1 := by omega
      rw [hr, List.range'_succ]
      by_cases hfree : alist_lookup tree (ext_guid guid i) = none
      · rw [if_pos hfree, List.find?_cons_of_pos _ (by simp [hfree])]
      · rw [if_neg hfree, List.find?_cons_of_neg _ (by simp [hfree]),
          ih (i + 1) tree (by omega)]
    · rw [conflict_bucket_loop, dif_neg hi]
      have h0 : 100 - i = 0 := by omega
      rw [h0]
      simp [List.range']

theorem delete_loop_eq (guid : String) :
    ∀ n i tree, 100 - i ≤ n → 1 ≤ i →
    delete_ext_buckets tree guid i =
      erase_ext_range tree guid i (first_missing_from tree guid i) := by
  intro n
  induction n with
  | zero =>
    intro i tree hn h1
    rw [delete_ext_buckets, dif_neg (by omega)]
    have h0 : 100 - i = 0 := by omega
    have hf : first_missing_from tree guid i = 100 := by
      rw [first_missing_from, h0]
      simp [List.range']
    rw [hf, erase_ext_range, dif_neg (by omega)]
  | succ n ih =>
    intro i tree hn h1
    by_cases hi : i < 100
    · have hr : 100 - i = (100 - (i + 1)) + 1 := by omega
      by_cases hfree : alist_lookup tree (ext_guid guid i) = none
      · rw [delete_ext_buckets, dif_pos hi, if_pos hfree]
        have hf : first_missing_from tree guid i = i := by
          rw [first_missing_from, hr, List.range'_succ,
            List.find?_cons_of_pos _ (by simp [hfree])]
        rw [hf, erase_ext_range, dif_neg (by omega)]
      · rw [delete_ext_buckets, dif_pos hi, if_neg hfree,
          ih (i + 1) (alist_erase tree (ext_guid guid i)) (by omega) (by omega)]
        have hfmf : first_missing_from (alist_erase tree (ext_guid guid i)) guid (i + 1) =
            first_missing_from tree guid i := by
          rw [first_missing_from, first_missing_from, hr, List.range'_succ,
            List.find?_cons_of_neg _ (by simp [hfree])]
          have hcong := find?_congr (List.range' (i + 1) (100 - (i + 1)))
            (fun j => (alist_lookup (alist_erase tree (ext_guid guid i))
              (ext_guid guid j)).isNone)
            (fun j => (alist_lookup tree (ext_guid guid j)).isNone)
            (fun x hx => by
              obtain ⟨hx1, hx2⟩ := List.mem_range'_1.mp hx
              simp only [alist_lookup_erase_ne tree (ext_guid guid i) (ext_guid guid x)
                (ext_guid_ne guid hi (by omega) (by omega))])
          rw [hcong]
        rw [hfmf]
        have hm : i < first_missing_from tree guid i := by
          rw [first_missing_from]
          rcases hfind : (List.range' i (100 - i)).find?
              (fun j => (alist_lookup tree (ext_guid guid j)).isNone) with _ | k
          · exact hi
          · obtain ⟨hk1, hk2, hk3, hk4⟩ := range_find?_some _ _ _ _ hfind
            rcases Nat.lt_or_ge i k with h | h
            · exact h
            · have hik : k = i := by omega
              subst hik
              simp [hfree] at hk3
        conv_rhs => rw [erase_ext_range, dif_pos hm]
    · rw [delete_ext_buckets, dif_neg hi]
      have h0 : 100 - i = 0 := by omega
      have hf : first_missing_from tree guid i = 100 := by
        rw [first_missing_from, h0]
        simp [List.range']
      rw [hf, erase_ext_range, dif_neg (by omega)]

/-- C8: when two chosen revisions share a `page_persistent_guid` at equal
timestamps with different content hashes, the later one lands in the
first free extension bucket among `guid-1` … `guid-99` (probed in that
order), bucket `guid-100` is never created and a fully occupied run
drops the revision silently; a strictly later revision takes over the
base slot and the consecutive extension buckets up to the first missing
index are deleted. -/
theorem conflict_buckets_correct (tree : VersionTree) (rev : RevisionBuilderCtx) :
    ConflictBucketSpec tree rev := by
  refine ⟨?_, ?_, ?_, ?_⟩
  · intro prev hlook hts hhash
    have hstep : add_revision_to_tree tree rev =
        conflict_bucket_loop tree rev.page_persistent_guid rev 1 := by
      simp only [add_revision_to_tree, hlook]
      rw [if_neg (by omega), if_pos hhash]
    have hloop := conflict_loop_eq rev.page_persistent_guid rev 99 1 tree (by omega)
    rw [show (100 : Nat) - 1 = 99 from rfl] at hloop
    rcases hf : first_free_bucket tree rev.page_persistent_guid with _ | k
    · show add_revision_to_tree tree rev = tree
      rw [first_free_bucket] at hf
      rw [hstep, hloop, hf]
    · show add_revision_to_tree tree rev =
        alist_insert tree (ext_guid rev.page_persistent_guid k) rev
      rw [first_free_bucket] at hf
      rw [hstep, hloop, hf]
  · intro k hk
    rw [first_free_bucket] at hk
    obtain ⟨h1, h2, h3, h4⟩ := range_find?_some _ _ _ _ hk
    refine ⟨h1, by omega, ?_, fun j hj1 hj2 => ?_⟩
    · rw [← Option.isNone_iff_eq_none]
      simpa using h3
    · have hpj := h4 j hj1 hj2
      intro hc
      simp only [hc] at hpj
      simp at hpj
  · intro hnone j hj1 hj2
    rw [first_free_bucket] at hnone
    have hpj := range_find?_none _ _ _ hnone j hj1 (by omega)
    intro hc
    simp only [hc] at hpj
    simp at hpj
  · intro prev hlook hlt
    have hstep : add_revision_to_tree tree rev =
        delete_ext_buckets (alist_insert tree rev.page_persistent_guid rev)
          rev.page_persistent_guid 1 := by
      simp only [add_revision_to_tree, hlook]
      rw [if_pos hlt]
    rw [hstep, delete_loop_eq rev.page_persistent_guid 99 1 _ (by omega) (by omega)]
    rfl

theorem conflict_buckets_correct_witness :
    ConflictBucketSpec
      [("g", ⟨1, some 10, false, none, none, "g", 5, 0⟩),
       (ext_guid "g" 1, ⟨2, some 10, false, none, none, "g", 6, 1⟩)]
      ⟨3, some 10, false, none, none, "g", 7, 2⟩ :=
  conflict_buckets_correct _ _

/-! ## C6: binary search -/

theorem bs_get_eq (a : List Int) (i : Nat) (h : i < a.length) :
    bs_get a i = a.get ⟨i, h⟩ := by
  simp [bs_get, List.getD_eq_getElem?_getD, List.getElem?_eq_getElem h,
    List.get_eq_getElem]

theorem sorted_get_lt (a : List Int) (hs : List.Pairwise (· < ·) a) {i j : Nat}
    (hi : i < a.length) (hj : j < a.length) (hij : i < j) :
    a.get ⟨i, hi⟩ < a.get ⟨j, hj⟩ := by
  have h := List.pairwise_iff_getElem.mp hs i j hi hj hij
  simpa [List.get_eq_getElem] using h

theorem find_loop_correct (a : List Int) (target : Int)
    (hs : List.Pairwise (· < ·) a) :
    ∀ n bottom top, top - bottom ≤ n → top ≤ a.length →
    (∀ i, ∀ hi : i < a.length, a.get ⟨i, hi⟩ = target → bottom ≤ i ∧ i < top) →
    (match find_loop a target bottom top with
     | some (item, pos) => item = target ∧ ∃ h : pos < a.length, a.get ⟨pos, h⟩ = target
     | none => ∀ i, ∀ hi : i < a.length, a.get ⟨i, hi⟩ ≠ target) := by
  intro n
  induction n with
  | zero =>
    intro bottom top hn htop hinv
    rw [find_loop, dif_neg (by omega)]
    intro i hi hit
    obtain ⟨h1, h2⟩ := hinv i hi hit
    omega
  | succ n ih =>
    intro bottom top hn htop hinv
    by_cases hbt : bottom < top
    case neg =>
      rw [find_loop, dif_neg hbt]
      intro i hi hit
      obtain ⟨h1, h2⟩ := hinv i hi hit
      omega
    case pos =>
      have hmlt : (top + bottom) / 2 < top := by omega
      have hmge : bottom ≤ (top + bottom) / 2 := by omega
      have hmlen : (top + bottom) / 2 < a.length := by omega
      by_cases heq1 : bs_get a ((top + bottom) / 2) = target
      · rw [find_loop, dif_pos hbt, if_pos heq1]
        exact ⟨heq1, hmlen, by rw [← bs_get_eq a _ hmlen]; exact heq1⟩
      · by_cases hgt : bs_get a ((top + bottom) / 2) > target
        · rw [find_loop, dif_pos hbt, if_neg heq1, if_pos hgt]
          refine ih bottom ((top + bottom) / 2) (by omega) (by omega) ?_
          intro i hi hit
          obtain ⟨h1, h2⟩ := hinv i hi hit
          refine ⟨h1, ?_⟩
          by_contra hc
          have hge : (top + bottom) / 2 ≤ i := by omega
          rcases Nat.eq_or_lt_of_le hge with hge2 | hge2
          · rw [← bs_get_eq a i hi, ← hge2] at hit
            exact heq1 hit
          · have := sorted_get_lt a hs hmlen hi hge2
            rw [bs_get_eq a _ hmlen] at hgt
            omega
        · by_cases hbm : bottom = (top + bottom) / 2
          · rw [find_loop, dif_pos hbt, if_neg heq1, if_neg hgt, if_pos hbm]
            intro i hi hit
            obtain ⟨h1, h2⟩ := hinv i hi hit
            have hieq : i = (top + bottom) / 2 := by omega
            rw [← bs_get_eq a i hi, hieq] at hit
            exact heq1 hit
          · rw [find_loop, dif_pos hbt, if_neg heq1, if_neg hgt, if_neg hbm]
            refine ih ((top + bottom) / 2) top (by omega) htop ?_
            intro i hi hit
            obtain ⟨h1, h2⟩ := hinv i hi hit
            refine ⟨?_, h2⟩
            by_contra hc
            have hlt2 : i < (top + bottom) / 2 := by omega
            have := sorted_get_lt a hs hi hmlen hlt2
            rw [bs_get_eq a _ hmlen] at heq1 hgt
            omega

theorem lower_bound_loop_correct (a : List Int) (target : Int)
    (hs : List.Pairwise (· < ·) a) :
    ∀ n bottom top top_item, top - bottom ≤ n → bottom ≤ top → top ≤ a.length →
    (∀ i, ∀ hi : i < a.length, i < bottom → a.get ⟨i, hi⟩ < target) →
    ((top_item = none ∧ top = a.length) ∨
      (∃ h : top < a.length, top_item = some (a.get ⟨top, h⟩) ∧
        target < a.get ⟨top, h⟩)) →
    (match lower_bound_loop a target bottom top top_item with
     | (some item, pos) => ∃ h : pos < a.length, a.get ⟨pos, h⟩ = item ∧
         target ≤ item ∧ ∀ i, ∀ hi : i < a.length, i < pos → a.get ⟨i, hi⟩ < target
     | (none, pos) => pos = a.length ∧
         ∀ i, ∀ hi : i < a.length, a.get ⟨i, hi⟩ < target) := by
  intro n
  induction n with
  | zero =>
    intro bottom top top_item hn hle htop hJ hK
    rw [lower_bound_loop, dif_neg (by omega)]
    rcases hK with ⟨htin, htlen⟩ | ⟨hlen, htis, htgt⟩
    · rw [htin]
      exact ⟨htlen, fun i hi => hJ i hi (by omega)⟩
    · rw [htis]
      exact ⟨hlen, rfl, le_of_lt htgt, fun i hi hip => hJ i hi (by omega)⟩
  | succ n ih =>
    intro bottom top top_item hn hle htop hJ hK
    by_cases hbt : bottom < top
    case neg =>
      rw [lower_bound_loop, dif_neg hbt]
      rcases hK with ⟨htin, htlen⟩ | ⟨hlen, htis, htgt⟩
      · rw [htin]
        exact ⟨htlen, fun i hi => hJ i hi (by omega)⟩
      · rw [htis]
        exact ⟨hlen, rfl, le_of_lt htgt, fun i hi hip => hJ i hi (by omega)⟩
    case pos =>
      have hmlt : (top + bottom) / 2 < top := by omega
      have hmge : bottom ≤ (top + bottom) / 2 := by omega
      have hmlen : (top + bottom) / 2 < a.length := by omega
      by_cases heq1 : bs_get a ((top + bottom) / 2) = target
      · rw [lower_bound_loop, dif_pos hbt, if_pos heq1]
        refine ⟨hmlen, (bs_get_eq a _ hmlen).symm, by
          rw [heq1], fun i hi hip => ?_⟩
        rcases Nat.lt_or_ge i bottom with hib | hib
        · exact hJ i hi hib
        · have := sorted_get_lt a hs hi hmlen hip
          rw [bs_get_eq a _ hmlen] at heq1
          omega
      · by_cases hgt : bs_get a ((top + bottom) / 2) > target
        · rw [lower_bound_loop, dif_pos hbt, if_neg heq1, if_pos hgt]
          refine ih bottom ((top + bottom) / 2) _ (by omega) (by omega) (by omega)
            hJ (Or.inr ⟨hmlen, ?_, ?_⟩)
          · rw [bs_get_eq a _ hmlen]
          · rw [bs_get_eq a _ hmlen] at hgt
            omega
        · by_cases hne : (top + bottom) / 2 ≠ bottom
          · rw [lower_bound_loop, dif_pos hbt, if_neg heq1, if_neg hgt, if_pos hne]
            refine ih ((top + bottom) / 2) top top_item (by omega) (by omega) htop
              (fun i hi hip => ?_) hK
            rcases Nat.lt_or_ge i bottom with hib | hib
            · exact hJ i hi hib
            · have := sorted_get_lt a hs hi hmlen hip
              rw [bs_get_eq a _ hmlen] at heq1 hgt
              omega
          · rw [lower_bound_loop, dif_pos hbt, if_neg heq1, if_neg hgt, if_neg hne]
            have hmid : (top + bottom) / 2 = bottom := by omega
            have htb : top = bottom + 1 := by omega
            have hblen : bottom < a.length := by omega
            have hblt : a.get ⟨bottom, hblen⟩ < target := by
              rw [← bs_get_eq a bottom hblen, ← hmid]
              omega
            have hall : ∀ i, ∀ hi : i < a.length, i < top → a.get ⟨i, hi⟩ < target := by
              intro i hi hip
              rcases Nat.lt_or_ge i bottom with hib | hib
              · exact hJ i hi hib
              · have hieq : i = bottom := by omega
                subst hieq
                exact hblt
            rcases hK with ⟨htin, htlen⟩ | ⟨hlen, htis, htgt⟩
            · rw [htin]
              exact ⟨htlen, fun i hi => hall i hi (by omega)⟩
            · rw [htis]
              exact ⟨hlen, rfl, le_of_lt htgt, fun i hi hip => hall i hi hip⟩

theorem int_mid_measure1 (bottom top : Int) (n : Nat) (hbt : bottom < top)
    (hn : (top - bottom).toNat ≤ n + 1) :
    (top - (top + bottom + 1) / 2).toNat ≤ n := by omega

theorem int_mid_measure2 (bottom top : Int) (n : Nat) (hbt : bottom < top)
    (hne : (top + bottom + 1) / 2 ≠ top)
    (hn : (top - bottom).toNat ≤ n + 1) :
    ((top + bottom + 1) / 2 - bottom).toNat ≤ n := by omega

theorem upper_bound_loop_correct (a : List Int) (target : Int)
    (hs : List.Pairwise (· < ·) a) :
    ∀ n (bottom top : Int) bottom_item, (top - bottom).toNat ≤ n →
    -1 ≤ bottom → bottom ≤ top → top ≤ (a.length : Int) - 1 →
    ((bottom_item = none ∧ bottom = -1) ∨
      (∃ h : bottom.toNat < a.length, 0 ≤ bottom ∧
        bottom_item = some (a.get ⟨bottom.toNat, h⟩) ∧
        a.get ⟨bottom.toNat, h⟩ < target)) →
    (∀ i, ∀ hi : i < a.length, top < (i : Int) → target < a.get ⟨i, hi⟩) →
    (match upper_bound_loop a target bottom top bottom_item with
     | (some item, pos) => 0 ≤ pos ∧ ∃ h : pos.toNat < a.length,
         a.get ⟨pos.toNat, h⟩ = item ∧ item ≤ target ∧
         ∀ i, ∀ hi : i < a.length, pos < (i : Int) → target < a.get ⟨i, hi⟩
     | (none, pos) => pos = -1 ∧
         ∀ i, ∀ hi : i < a.length, target < a.get ⟨i, hi⟩) := by
  intro n
  induction n with
  | zero =>
    intro bottom top bottom_item hn hb1 hle htop hM hN
    rw [upper_bound_loop, dif_neg (by omega)]
    rcases hM with ⟨hbin, hbeq⟩ | ⟨hlen, hb0, hbis, hblt⟩
    · rw [hbin]
      exact ⟨hbeq, fun i hi => hN i hi (by omega)⟩
    · rw [hbis]
      exact ⟨hb0, hlen, rfl, le_of_lt hblt, fun i hi hip => hN i hi (by omega)⟩
  | succ n ih =>
    intro bottom top bottom_item hn hb1 hle htop hM hN
    by_cases hbt : bottom < top
    case neg =>
      rw [upper_bound_loop, dif_neg hbt]
      rcases hM with ⟨hbin, hbeq⟩ | ⟨hlen, hb0, hbis, hblt⟩
      · rw [hbin]
        exact ⟨hbeq, fun i hi => hN i hi (by omega)⟩
      · rw [hbis]
        exact ⟨hb0, hlen, rfl, le_of_lt hblt, fun i hi hip => hN i hi (by omega)⟩
    case pos =>
      have hmgt : bottom < (top + bottom + 1) / 2 := by omega
      have hmle : (top + bottom + 1) / 2 ≤ top := by omega
      have hm0 : 0 ≤ (top + bottom + 1) / 2 := by omega
      have hmlen : ((top + bottom + 1) / 2).toNat < a.length := by omega
      by_cases heq1 : bs_get a ((top + bottom + 1) / 2).toNat = target
      · rw [upper_bound_loop, dif_pos hbt, if_pos heq1]
        refine ⟨hm0, hmlen, (bs_get_eq a _ hmlen).symm, by rw [heq1],
          fun i hi hip => ?_⟩
        have hmi : ((top + bottom + 1) / 2).toNat < i := by omega
        have := sorted_get_lt a hs hmlen hi hmi
        rw [bs_get_eq a _ hmlen] at heq1
        omega
      have hmeas1 : (top - (top + bottom + 1) / 2).toNat ≤ n :=
        int_mid_measure1 bottom top n hbt hn
      by_cases hlt : bs_get a ((top + bottom + 1) / 2).toNat < target
      · rw [upper_bound_loop, dif_pos hbt, if_neg heq1, if_pos hlt]
        refine ih ((top + bottom + 1) / 2) top _ hmeas1 (by omega) hmle htop
          (Or.inr ⟨hmlen, hm0, ?_, ?_⟩) hN
        · rw [bs_get_eq a _ hmlen]
        · rw [bs_get_eq a _ hmlen] at hlt
          exact hlt
      · by_cases hne : (top + bottom + 1) / 2 ≠ top
        · have hmeas2 : ((top + bottom + 1) / 2 - bottom).toNat ≤ n :=
            int_mid_measure2 bottom top n hbt hne hn
          rw [upper_bound_loop, dif_pos hbt, if_neg heq1, if_neg hlt, if_pos hne]
          refine ih bottom ((top + bottom + 1) / 2) bottom_item hmeas2 hb1
            (by omega) (by omega) hM (fun i hi hip => ?_)
          rcases Int.lt_or_le (top : Int) (i : Int) with hit | hit
          · exact hN i hi hit
          · have hmi : ((top + bottom + 1) / 2).toNat < i := by omega
            have := sorted_get_lt a hs hmlen hi hmi
            rw [bs_get_eq a _ hmlen] at heq1 hlt
            omega
        · rw [upper_bound_loop, dif_pos hbt, if_neg heq1, if_neg hlt, if_neg hne]
          have hall : ∀ i, ∀ hi : i < a.length, bottom < (i : Int) →
              target < a.get ⟨i, hi⟩ := by
            intro i hi hip
            rcases Int.lt_or_le (top : Int) (i : Int) with hit | hit
            · exact hN i hi hit
            · have hieq : i = ((top + bottom + 1) / 2).toNat := by omega
              subst hieq
              rw [← bs_get_eq a _ hmlen]
              omega
          rcases hM with ⟨hbin, hbeq⟩ | ⟨hlen, hb0, hbis, hblt⟩
          · rw [hbin]
            exact ⟨hbeq, fun i hi => hall i hi (by omega)⟩
          · rw [hbis]
            exact ⟨hb0, hlen, rfl, le_of_lt hblt, fun i hi hip => hall i hi hip⟩

/-- C6 counterexample: on the (non-strictly) ascending array `[5, 5]` with
target 5, `LowerBound` returns position 1, although position 0 < 1 already
holds an item `≥ 5` — so as stated over arbitrary ascending arrays the
claim "returns the first item `>= target` together with its position"
fails.  (The repository's own randomized test only draws arrays with
distinct values, via `random.sample`.) -/
theorem lower_bound_duplicates_counterexample :
    List.Pairwise (· ≤ ·) ([5, 5] : List Int) ∧
    LowerBound [5, 5] 5 = (some 5, 1) ∧
    5 ≤ bs_get [5, 5] 0 ∧ (0 : Nat) < 1 := by
  refine ⟨by decide, ?_, by decide, by decide⟩
  rw [LowerBound]
  rw [lower_bound_loop]
  norm_num [bs_get]

/-- C6 (amended to strictly ascending arrays): `Find` returns the target
at a position holding it and `(None, None)` exactly when it is absent;
`LowerBound` returns the first item `≥ target` with its position
(`(None, len)` when every item is below); `UpperBound` returns the last
item `≤ target` with its position (`(None, -1)` when every item is
above). -/
theorem binary_search_strict_sorted (a : List Int) (target : Int)
    (hs : List.Pairwise (· < ·) a) :
    FindSpec a target ∧ LowerBoundSpec a target ∧ UpperBoundSpec a target := by
  have hf := find_loop_correct a target hs a.length 0 a.length (by omega)
    (le_refl _) (fun i hi _ => ⟨Nat.zero_le i, hi⟩)
  have hlb := lower_bound_loop_correct a target hs a.length 0 a.length none
    (by omega) (Nat.zero_le _) (le_refl _) (fun i hi h => absurd h (by omega))
    (Or.inl ⟨rfl, rfl⟩)
  have hub := upper_bound_loop_correct a target hs a.length (-1)
    ((a.length : Int) - 1) none (by omega) (by omega) (by omega) (by omega)
    (Or.inl ⟨rfl, rfl⟩) (fun i hi hgt => absurd hgt (by omega))
  refine ⟨⟨?_, ?_, ?_⟩, ⟨?_, ?_⟩, ⟨?_, ?_⟩⟩
  · intro hnone htgt
    rw [Find] at hnone
    rw [hnone] at hf
    obtain ⟨k, hk, hkeq⟩ := List.mem_iff_getElem.mp htgt
    exact hf k hk (by simpa [List.get_eq_getElem] using hkeq)
  · intro habs
    rcases hval : Find a target with _ | ⟨item, pos⟩
    · rfl
    · exfalso
      rw [Find] at hval
      rw [hval] at hf
      obtain ⟨h1, h2, h3⟩ := hf
      exact habs (List.mem_iff_getElem.mpr ⟨pos, h2, by
        simpa [List.get_eq_getElem] using h3⟩)
  · intro item pos hsome
    rw [Find] at hsome
    rw [hsome] at hf
    obtain ⟨h1, h2, h3⟩ := hf
    subst h1
    exact ⟨rfl, h2, h3⟩
  · intro item pos hsome
    rw [LowerBound] at hsome
    rw [hsome] at hlb
    exact hlb
  · intro pos hnone
    rw [LowerBound] at hnone
    rw [hnone] at hlb
    exact hlb
  · intro item pos hsome
    rw [UpperBound] at hsome
    rw [hsome] at hub
    exact hub
  · intro pos hnone
    rw [UpperBound] at hnone
    rw [hnone] at hub
    exact hub

theorem binary_search_strict_sorted_witness :
    List.Pairwise (· < ·) ([10, 20, 30] : List Int) ∧
    (FindSpec [10, 20, 30] 20 ∧ LowerBoundSpec [10, 20, 30] 20 ∧
      UpperBoundSpec [10, 20, 30] 20) :=
  ⟨by decide, binary_search_strict_sorted [10, 20, 30] 20 (by decide)⟩

end OneNote
